/- Verification of the ShiftBot attendance tracker (shift ledger, time
   aggregation, geofence verdict) against its two source variants,
   src/shiftbot_clean and src/shiftbot_admin_siw1_rd3.

   Embedding conventions:
   * The SQLite `shifts` table is a list of rows in rowid (insertion) order.
   * `work_date` is stored as a zero-padded ISO `YYYY-MM-DD` TEXT column; SQL
     string comparison of such strings is exactly lexicographic comparison of
     the (year, month, day) triple, so dates are embedded as that triple and
     the SQL `<`, `>=`, `BETWEEN` operators as the lexicographic order below.
     The SQL pattern `work_date LIKE 'YYYY-MM-%'` on such strings is exactly
     equality of the year and month fields.
   * `check_in` / `check_out` are ISO timestamp TEXT columns written with
     `datetime.isoformat()` and read back with `fromisoformat`/`isoparse`;
     durations only ever use the difference in seconds, so timestamps are
     embedded as integer epoch seconds (`Int`), NULL as `none`.  Python
     truthiness of the column (`if row["check_in"]`) is `Option.isSome`,
     faithful because the program never stores an empty string.
   * The user-facing message strings returned by the db layer are embedded as
     the inductive `Msg` below (the two variants word them differently but
     identically in meaning; the constructor comments quote both). -/
import Mathlib

namespace ShiftBot

/-- A calendar date, embedding the `work_date` TEXT column (`YYYY-MM-DD`). -/
structure Date where
  year : Nat
  month : Nat
  day : Nat
deriving DecidableEq

/-- SQL `a <= b` on zero-padded ISO date strings: lexicographic on the triple. -/
def Date.leb (a b : Date) : Bool :=
  decide (a.year < b.year ∨ (a.year = b.year ∧
    (a.month < b.month ∨ (a.month = b.month ∧ a.day ≤ b.day))))

/-- SQL `a < b` on zero-padded ISO date strings: lexicographic on the triple. -/
def Date.ltb (a b : Date) : Bool :=
  decide (a.year < b.year ∨ (a.year = b.year ∧
    (a.month < b.month ∨ (a.month = b.month ∧ a.day < b.day))))

/-- One row of the `shifts` table (both variants declare the same schema:
`user_id, work_date, check_in NULLABLE, check_out NULLABLE,
UNIQUE(user_id, work_date)`). -/
structure Shift where
  user_id : Nat
  work_date : Date
  check_in : Option Int
  check_out : Option Int
deriving DecidableEq

/-- The `shifts` table: rows in rowid order. -/
abbrev Ledger := List Shift

/-- The db-layer result messages.  Constructors stand for the literal strings:
`ok` = ``"OK"`` (clean) / ``"Ок"`` (siw1); `alreadyCheckedIn` = ``"Приход уже
отмечен."`` / ``"Уже отмечен приход"``; `noCheckIn` = ``"Сначала отметьте
приход."`` / ``"Сначала отметь приход"``; `alreadyCheckedOut` = ``"Уход уже
отмечен."`` / ``"Уже отмечен уход"``. -/
inductive Msg where
  | ok
  | alreadyCheckedIn
  | noCheckIn
  | alreadyCheckedOut
deriving DecidableEq

/-- `SELECT ... FROM shifts WHERE user_id=? AND work_date=?` followed by
`fetchone()`: the first row matching the key (the UNIQUE constraint keeps it
the only one in reachable states). -/
def findShift (L : Ledger) (u : Nat) (d : Date) : Option Shift :=
  L.find? (fun s => decide (s.user_id = u ∧ s.work_date = d))

/-- Number of rows for a (user_id, work_date) key. -/
def countKey (L : Ledger) (u : Nat) (d : Date) : Nat :=
  (L.filter (fun s => decide (s.user_id = u ∧ s.work_date = d))).length

/-- `UPDATE shifts SET check_in=? WHERE user_id=? AND work_date=?`: rewrites
the `check_in` column of every row matching the key. -/
def updateCheckIn (L : Ledger) (u : Nat) (d : Date) (ts : Int) : Ledger :=
  L.map (fun s => if s.user_id = u ∧ s.work_date = d
    then { s with check_in := some ts } else s)

/-- `UPDATE shifts SET check_out=? WHERE user_id=? AND work_date=?`. -/
def updateCheckOut (L : Ledger) (u : Nat) (d : Date) (ts : Int) : Ledger :=
  L.map (fun s => if s.user_id = u ∧ s.work_date = d
    then { s with check_out := some ts } else s)

/-- `get_or_create_shift` (shiftbot_clean/db.py lines 88-101,
shiftbot_admin_siw1_rd3/db.py lines 63-66): `INSERT OR IGNORE INTO
shifts(user_id, work_date) VALUES(?, ?)` — appends an empty row at the end
(AUTOINCREMENT id) unless a row with the key already exists. -/
def get_or_create_shift (L : Ledger) (u : Nat) (d : Date) : Ledger :=
  match findShift L u d with
  | some _ => L
  | none => L ++ [⟨u, d, none, none⟩]

/-- `set_check_in` (shiftbot_clean/db.py lines 104-120,
shiftbot_admin_siw1_rd3/db.py lines 68-77): reads the row for the key; if it
exists and its `check_in` is truthy, returns failure without touching the
table; otherwise runs the `UPDATE` and returns success.  Returns the
(success, message) pair together with the resulting table. -/
def set_check_in (L : Ledger) (u : Nat) (d : Date) (ts : Int) :
    (Bool × Msg) × Ledger :=
  match findShift L u d with
  | some s =>
      if s.check_in.isSome then ((false, Msg.alreadyCheckedIn), L)
      else ((true, Msg.ok), updateCheckIn L u d ts)
  | none => ((true, Msg.ok), updateCheckIn L u d ts)

/-- `set_check_out` (shiftbot_clean/db.py lines 123-141,
shiftbot_admin_siw1_rd3/db.py lines 79-90): `if not row or not
row["check_in"]` → `NoCheckIn` failure; `if row["check_out"]` →
`AlreadyCheckedOut` failure; otherwise `UPDATE` and success. -/
def set_check_out (L : Ledger) (u : Nat) (d : Date) (ts : Int) :
    (Bool × Msg) × Ledger :=
  match findShift L u d with
  | none => ((false, Msg.noCheckIn), L)
  | some s =>
      if s.check_in.isNone then ((false, Msg.noCheckIn), L)
      else if s.check_out.isSome then ((false, Msg.alreadyCheckedOut), L)
      else ((true, Msg.ok), updateCheckOut L u d ts)

/-- `_minutes_between` (shiftbot_admin_siw1_rd3/db.py lines 111-121): 0 when
either endpoint is missing; otherwise `max(int(delta.total_seconds() // 60),
0)` — Python `//` on the seconds difference is floor division, embedded as
`Int.fdiv`.  (The `try/except` around ISO parsing cannot fire in the integer
embedding, where every stored timestamp is well-formed by construction.) -/
def _minutes_between : Option Int → Option Int → Int
  | some ci, some co => max (Int.fdiv (co - ci) 60) 0
  | _, _ => 0

/-! The shift-lifecycle invariant (claim C3): operations, invariants,
preservation. -/

/-- A Shift Ledger operation. -/
inductive Op where
  | ensure (u : Nat) (d : Date)
  | checkin (u : Nat) (d : Date) (ts : Int)
  | checkout (u : Nat) (d : Date) (ts : Int)

/-- Applying one operation to the table (the (success, message) result is
dropped; only the table evolves). -/
def applyOp (L : Ledger) : Op → Ledger
  | Op.ensure u d => get_or_create_shift L u d
  | Op.checkin u d ts => (set_check_in L u d ts).2
  | Op.checkout u d ts => (set_check_out L u d ts).2

/-- Running a sequence of operations left to right. -/
def run (L : Ledger) (ops : List Op) : Ledger := ops.foldl applyOp L

/-- The `UNIQUE(user_id, work_date)` table constraint. -/
def keysUnique (L : Ledger) : Prop :=
  L.Pairwise (fun a b => ¬(a.user_id = b.user_id ∧ a.work_date = b.work_date))

/-- Invariant: no row has a check-out set while its check-in is unset. -/
def coInv (L : Ledger) : Prop :=
  ∀ s ∈ L, s.check_out.isSome → s.check_in.isSome

/-- Between two tables: every row keeps any already-set check-in or check-out
value (fields are never overwritten, only filled in). -/
def mono (L L' : Ledger) : Prop :=
  ∀ u d s, findShift L u d = some s →
    ∃ s', findShift L' u d = some s' ∧
      (∀ v, s.check_in = some v → s'.check_in = some v) ∧
      (∀ v, s.check_out = some v → s'.check_out = some v)

/-! Month aggregation.  The two variants differ here and are embedded
separately, in namespaces `clean` and `siw1`. -/

/-- One `{date, minutes}` entry returned by `month_days_for_user`. -/
structure DayEntry where
  date : Date
  minutes : Int
deriving DecidableEq

/-- `_month_bounds` (shiftbot_clean/db.py lines 172-178): the half-open month
window `[year-month-01, next-month-01)`, December rolling to January of
`year + 1`. -/
def _month_bounds (year month : Nat) : Date × Date :=
  (⟨year, month, 1⟩, if month < 12 then ⟨year, month + 1, 1⟩ else ⟨year + 1, 1, 1⟩)

/-- Dates the program actually stores (`today_local_str()` output): month in
1..12 and day ≥ 1. -/
def wfDate (d : Date) : Prop := 1 ≤ d.month ∧ d.month ≤ 12 ∧ 1 ≤ d.day

/-- Stated from the spec's words, for comparison with the variants' filters:
`work_date` lies in the half-open range `[year-month-01, next-month-01)`,
with December rolling over to January of year+1. -/
def spec_month_range (d : Date) (year month : Nat) : Prop :=
  Date.leb ⟨year, month, 1⟩ d = true ∧
  Date.ltb d (if month < 12 then ⟨year, month + 1, 1⟩ else ⟨year + 1, 1, 1⟩) = true

instance (d : Date) (year month : Nat) : Decidable (spec_month_range d year month) :=
  inferInstanceAs (Decidable (_ ∧ _))

/-- The row order produced by `ORDER BY work_date`.  (Ties may be emitted in
any order by SQLite; in every reachable per-user selection the dates are
distinct, so the sorted list is uniquely determined.) -/
def byDate (a b : Shift) : Prop := Date.leb a.work_date b.work_date = true

instance : DecidableRel byDate := fun a b =>
  inferInstanceAs (Decidable (_ = _))

instance : IsTotal Shift byDate where
  total a b := by
    unfold byDate Date.leb
    rcases Nat.lt_trichotomy a.work_date.year b.work_date.year with h | h | h <;>
      rcases Nat.lt_trichotomy a.work_date.month b.work_date.month with h2 | h2 | h2 <;>
        rcases Nat.le_total a.work_date.day b.work_date.day with h3 | h3 <;>
          simp <;> omega

instance : IsTrans Shift byDate where
  trans a b c hab hbc := by
    unfold byDate Date.leb at *
    simp only [decide_eq_true_eq] at *
    omega

namespace clean

/-- Rows selected by `WHERE user_id=? AND work_date>=? AND work_date<?` with
the `_month_bounds` endpoints (shiftbot_clean/db.py lines 186-190 and
208-213). -/
def monthShifts (L : Ledger) (u year month : Nat) : List Shift :=
  L.filter (fun s => decide (s.user_id = u) &&
    Date.leb (_month_bounds year month).1 s.work_date &&
    Date.ltb s.work_date (_month_bounds year month).2)

/-- `month_minutes_for_user` (shiftbot_clean/db.py lines 181-197): fold over
the month's rows, skipping rows missing either timestamp and adding
`max(int((dt_out - dt_in).total_seconds() // 60), 0)` for closed ones. -/
def month_minutes_for_user (L : Ledger) (u year month : Nat) : Int :=
  (monthShifts L u year month).foldl
    (fun total s =>
      match s.check_in, s.check_out with
      | some ci, some co => total + max (Int.fdiv (co - ci) 60) 0
      | _, _ => total) 0

/-- `month_days_for_user` (shiftbot_clean/db.py lines 200-225): the month's
rows `ORDER BY work_date`; rows missing either timestamp are skipped
(`continue`); every remaining closed row yields a `{date, minutes}` entry —
including rows whose computed minutes are 0. -/
def month_days_for_user (L : Ledger) (u year month : Nat) : List DayEntry :=
  (List.insertionSort byDate (monthShifts L u year month)).filterMap
    (fun s =>
      match s.check_in, s.check_out with
      | some ci, some co => some ⟨s.work_date, max (Int.fdiv (co - ci) 60) 0⟩
      | _, _ => none)

end clean

namespace siw1

/-- Rows selected by `WHERE user_id=? AND work_date LIKE 'YYYY-MM-%'`
(shiftbot_admin_siw1_rd3/db.py lines 127-130 and 142-145): a prefix match on
the zero-padded ISO string, i.e. equality of the year and month fields. -/
def monthShifts (L : Ledger) (u year month : Nat) : List Shift :=
  L.filter (fun s => decide (s.user_id = u ∧ s.work_date.year = year ∧
    s.work_date.month = month))

/-- `month_minutes_for_user` (shiftbot_admin_siw1_rd3/db.py lines 123-135):
total of `_minutes_between` over the month's rows. -/
def month_minutes_for_user (L : Ledger) (u year month : Nat) : Int :=
  (monthShifts L u year month).foldl
    (fun total s => total + _minutes_between s.check_in s.check_out) 0

/-- `month_days_for_user` (shiftbot_admin_siw1_rd3/db.py lines 137-152): the
month's rows `ORDER BY work_date`; one `{date, minutes}` entry per row whose
`_minutes_between` is strictly positive. -/
def month_days_for_user (L : Ledger) (u year month : Nat) : List DayEntry :=
  (List.insertionSort byDate (monthShifts L u year month)).filterMap
    (fun s =>
      if _minutes_between s.check_in s.check_out > 0
      then some ⟨s.work_date, _minutes_between s.check_in s.check_out⟩
      else none)

end siw1

instance (d : Date) : Decidable (wfDate d) :=
  inferInstanceAs (Decidable (_ ∧ _))

instance (L : Ledger) : Decidable (keysUnique L) :=
  inferInstanceAs (Decidable (List.Pairwise _ _))

/-! Claim C7: the geofence verdict.  The haversine trigonometry itself is
floating point and is not embedded; the computed distance is taken as an
exact rational input, and the verdict logic applied to it is embedded
faithfully. -/

/-- Python `int(x)`: truncation toward zero. -/
def pyint (q : ℚ) : ℤ := if 0 ≤ q then ⌊q⌋ else ⌈q⌉

/-- `inside` (shiftbot_clean/main.py lines 188-190):
`d = int(haversine_m(lat, lon, PLACE_LAT, PLACE_LON))` followed by
`return (d <= RADIUS_METERS, d)` — the distance is truncated to a whole
number of metres *before* the comparison, and the truncated value is also
what the caller reports as the distance. -/
def clean_inside (dist RADIUS_METERS : ℚ) : Bool × ℤ :=
  (decide ((pyint dist : ℚ) ≤ RADIUS_METERS), pyint dist)

/-- `_inside_geofence` (shiftbot_admin_siw1_rd3/main.py lines 89-91):
`dist = haversine_m(...); return (dist <= RADIUS_METERS), dist` — the raw
distance is compared. -/
def _inside_geofence (dist RADIUS_METERS : ℚ) : Bool × ℚ :=
  (decide (dist ≤ RADIUS_METERS), dist)

/-! Claim C6: `month_minutes_by_user`. -/

/-- One row of the `users` table. -/
structure User where
  id : Nat
  tg_id : Nat
  full_name : String
  department : Option String
deriving DecidableEq

/-- One output dict of `month_minutes_by_user`:
`{"user_id", "full_name", "department", "minutes"}`. -/
structure UserMinutes where
  user_id : Nat
  full_name : String
  department : Option String
  minutes : Int
deriving DecidableEq

/-- SQL `FROM shifts s JOIN users u ON u.id = s.user_id`: one row per
matching shift/user pair, in table order. -/
def joinRows (shifts : Ledger) (users : List User) : List (Shift × User) :=
  shifts.flatMap (fun s =>
    (users.filter (fun u => decide (u.id = s.user_id))).map (fun u => (s, u)))

/-- Python truthiness of the optional department argument (`if department:`):
`None` and the empty string are falsy, so no department clause is added. -/
def deptTruthy : Option String → Bool
  | none => false
  | some s => !s.isEmpty

/-- The optional SQL clause `AND u.department = ?`. -/
def deptFilter (department : Option String) (u : User) : Bool :=
  if deptTruthy department then decide (u.department = department) else true

/-- SQLite BINARY collation on TEXT: lexicographic comparison of the
code-point sequence (the same relation as Lean's `String.lt`, stated on
`String.data` so that it evaluates in the kernel). -/
def strLt (a b : String) : Prop := a.data < b.data

instance : DecidableRel strLt := fun a b =>
  inferInstanceAs (Decidable (a.data < b.data))

/-- SQLite ordering on a nullable TEXT column: NULL sorts before any string. -/
def optStrLt (a b : Option String) : Prop :=
  match a, b with
  | none, none => False
  | none, some _ => True
  | some _, none => False
  | some x, some y => strLt x y

instance : DecidableRel optStrLt := fun a b =>
  match a, b with
  | none, none => isFalse id
  | none, some _ => isTrue trivial
  | some _, none => isFalse id
  | some x, some y => inferInstanceAs (Decidable (strLt x y))

/-- `ORDER BY s.user_id, s.work_date` (clean). -/
def cleanRowOrder (a b : Shift × User) : Prop :=
  a.1.user_id < b.1.user_id ∨
    (a.1.user_id = b.1.user_id ∧ Date.leb a.1.work_date b.1.work_date = true)

instance : DecidableRel cleanRowOrder := fun a b =>
  inferInstanceAs (Decidable (_ ∨ _))

/-- `ORDER BY u.department, u.full_name, s.work_date` (siw1). -/
def siw1RowOrder (a b : Shift × User) : Prop :=
  optStrLt a.2.department b.2.department ∨
    (a.2.department = b.2.department ∧ (strLt a.2.full_name b.2.full_name ∨
      (a.2.full_name = b.2.full_name ∧ Date.leb a.1.work_date b.1.work_date = true)))

instance : DecidableRel siw1RowOrder := fun a b =>
  inferInstanceAs (Decidable (_ ∨ _))

/-- `item = totals.setdefault(uid, {..., "minutes": 0}); item["minutes"] +=
mins` (and the equivalent `if uid not in totals` form): a first-seen user is
appended at the end with the given minutes, an existing row has its minutes
increased. -/
def bump (agg : List UserMinutes) (uid : Nat) (name : String)
    (dept : Option String) (mins : Int) : List UserMinutes :=
  if agg.any (fun r => decide (r.user_id = uid)) then
    agg.map (fun r => if r.user_id = uid
      then { r with minutes := r.minutes + mins } else r)
  else agg ++ [⟨uid, name, dept, mins⟩]

namespace clean

/-- The period filter of `month_minutes_by_user` (shiftbot_clean/db.py lines
264-279): half-open `[start, next-month-01)` when `end_day` is omitted,
otherwise `BETWEEN start AND end` (inclusive). -/
def periodFilter (year month start_day : Nat) (end_day : Option Nat)
    (s : Shift) : Bool :=
  match end_day with
  | none => Date.leb ⟨year, month, start_day⟩ s.work_date &&
      Date.ltb s.work_date (_month_bounds year month).2
  | some ed => Date.leb ⟨year, month, start_day⟩ s.work_date &&
      Date.leb s.work_date ⟨year, month, ed⟩

/-- `month_minutes_by_user` (shiftbot_clean/db.py lines 255-308): join with
period and optional department filter, `ORDER BY s.user_id, s.work_date`,
then the dict aggregation — rows missing a timestamp are skipped, every
closed row reaches `setdefault` (creating the user's entry even when its
minutes are 0) and adds `max(int(...), 0)`. -/
def month_minutes_by_user (shifts : Ledger) (users : List User)
    (year month start_day : Nat) (end_day : Option Nat)
    (department : Option String) : List UserMinutes :=
  (List.insertionSort cleanRowOrder
      ((joinRows shifts users).filter
        (fun r => periodFilter year month start_day end_day r.1 &&
          deptFilter department r.2))).foldl
    (fun agg r =>
      match r.1.check_in, r.1.check_out with
      | some ci, some co => bump agg r.1.user_id r.2.full_name r.2.department
          (max (Int.fdiv (co - ci) 60) 0)
      | _, _ => agg) []

end clean

namespace siw1

/-- `_in_range` (shiftbot_admin_siw1_rd3/db.py lines 174-178): purely numeric
day-of-month range check. -/
def _in_range (start_day : Nat) (end_day : Option Nat) (work_date : Date) : Bool :=
  match end_day with
  | none => decide (start_day ≤ work_date.day)
  | some ed => decide (start_day ≤ work_date.day ∧ work_date.day ≤ ed)

/-- `month_minutes_by_user` (shiftbot_admin_siw1_rd3/db.py lines 154-192):
join restricted by `LIKE 'YYYY-MM-%'` and the optional department, `ORDER BY
u.department, u.full_name, s.work_date`, then the dict aggregation — rows
outside the day range are skipped, as are rows with `mins <= 0`; only
positive-minute rows reach the dict. -/
def month_minutes_by_user (shifts : Ledger) (users : List User)
    (year month start_day : Nat) (end_day : Option Nat)
    (department : Option String) : List UserMinutes :=
  (List.insertionSort siw1RowOrder
      ((joinRows shifts users).filter
        (fun r => decide (r.1.work_date.year = year ∧ r.1.work_date.month = month) &&
          deptFilter department r.2))).foldl
    (fun agg r =>
      if _in_range start_day end_day r.1.work_date then
        if _minutes_between r.1.check_in r.1.check_out > 0 then
          bump agg r.1.user_id r.2.full_name r.2.department
            (_minutes_between r.1.check_in r.1.check_out)
        else agg
      else agg) []

end siw1

/-- Generic shape shared by both variants' aggregation loops: `f` maps a
joined row to `some mins` when the row reaches the dict update, to `none`
when the loop skips it. -/
def aggStep (f : Shift × User → Option Int) (agg : List UserMinutes)
    (r : Shift × User) : List UserMinutes :=
  match f r with
  | some m => bump agg r.1.user_id r.2.full_name r.2.department m
  | none => agg

/-- The contribution selector of clean's loop: closed rows contribute their
clamped minutes (possibly 0), open rows are skipped. -/
def cleanContrib (r : Shift × User) : Option Int :=
  match r.1.check_in, r.1.check_out with
  | some ci, some co => some (max (Int.fdiv (co - ci) 60) 0)
  | _, _ => none

/-- The contribution selector of siw1's loop: rows in the day range with
strictly positive minutes contribute them; all others are skipped. -/
def siw1Contrib (start_day : Nat) (end_day : Option Nat)
    (r : Shift × User) : Option Int :=
  if siw1._in_range start_day end_day r.1.work_date then
    if _minutes_between r.1.check_in r.1.check_out > 0 then
      some (_minutes_between r.1.check_in r.1.check_out)
    else none
  else none

/-- Minutes recorded for a user id in an aggregation state. -/
def minsOf (agg : List UserMinutes) (uid : Nat) : Option Int :=
  (agg.find? (fun r => decide (r.user_id = uid))).map (fun r => r.minutes)

/-- Sum of the contributions of one user's rows. -/
def contribSum (f : Shift × User → Option Int)
    (rows : List (Shift × User)) (uid : Nat) : Int :=
  (rows.filterMap (fun r => if r.1.user_id = uid then f r else none)).sum

/-- Whether some row of the user reaches the dict update. -/
def touches (f : Shift × User → Option Int)
    (rows : List (Shift × User)) (uid : Nat) : Bool :=
  rows.any (fun r => decide (r.1.user_id = uid) && (f r).isSome)

/-- The output rows have pairwise distinct user ids. -/
def aggKeysUnique (agg : List UserMinutes) : Prop :=
  agg.Pairwise (fun a b => a.user_id ≠ b.user_id)

/-- The qualifying joined rows of the clean variant: period filter (half-open
or BETWEEN) and optional department filter. -/
def cleanQualRows (shifts : Ledger) (users : List User)
    (year month start_day : Nat) (end_day : Option Nat)
    (department : Option String) : List (Shift × User) :=
  (joinRows shifts users).filter
    (fun r => clean.periodFilter year month start_day end_day r.1 &&
      deptFilter department r.2)

/-- The qualifying joined rows of the siw1 variant: month prefix match,
optional department filter, and the numeric day range. -/
def siw1QualRows (shifts : Ledger) (users : List User)
    (year month start_day : Nat) (end_day : Option Nat)
    (department : Option String) : List (Shift × User) :=
  (joinRows shifts users).filter
    (fun r => (decide (r.1.work_date.year = year ∧ r.1.work_date.month = month) &&
      deptFilter department r.2) && siw1._in_range start_day end_day r.1.work_date)

/-- Sum of `_minutes_between` over one user's rows in a row list. -/
def qualSum (rows : List (Shift × User)) (uid : Nat) : Int :=
  ((rows.filter (fun r => decide (r.1.user_id = uid))).map
    (fun r => _minutes_between r.1.check_in r.1.check_out)).sum

/-! Basic lemmas about the ledger primitives. -/

theorem findShift_updateCheckIn (L : Ledger) (u : Nat) (d : Date) (ts : Int) :
    findShift (updateCheckIn L u d ts) u d
      = (findShift L u d).map (fun s => { s with check_in := some ts }) := by
  unfold findShift updateCheckIn
  rw [List.find?_map]
  have hp : ((fun s : Shift => decide (s.user_id = u ∧ s.work_date = d)) ∘
      (fun s : Shift => if s.user_id = u ∧ s.work_date = d
        then { s with check_in := some ts } else s))
      = fun s : Shift => decide (s.user_id = u ∧ s.work_date = d) := by
    funext s
    by_cases h : s.user_id = u ∧ s.work_date = d
    · simp [h]
    · simp only [Function.comp_apply, if_neg h]
  rw [hp]
  cases hfind : List.find? (fun s : Shift => decide (s.user_id = u ∧ s.work_date = d)) L with
  | none => rfl
  | some s =>
      have hps := List.find?_some hfind
      simp at hps
      simp [hps]

theorem findShift_updateCheckOut (L : Ledger) (u : Nat) (d : Date) (ts : Int) :
    findShift (updateCheckOut L u d ts) u d
      = (findShift L u d).map (fun s => { s with check_out := some ts }) := by
  unfold findShift updateCheckOut
  rw [List.find?_map]
  have hp : ((fun s : Shift => decide (s.user_id = u ∧ s.work_date = d)) ∘
      (fun s : Shift => if s.user_id = u ∧ s.work_date = d
        then { s with check_out := some ts } else s))
      = fun s : Shift => decide (s.user_id = u ∧ s.work_date = d) := by
    funext s
    by_cases h : s.user_id = u ∧ s.work_date = d
    · simp [h]
    · simp only [Function.comp_apply, if_neg h]
  rw [hp]
  cases hfind : List.find? (fun s : Shift => decide (s.user_id = u ∧ s.work_date = d)) L with
  | none => rfl
  | some s =>
      have hps := List.find?_some hfind
      simp at hps
      simp [hps]

theorem updateCheckIn_not_found (L : Ledger) (u : Nat) (d : Date) (ts : Int)
    (h : findShift L u d = none) : updateCheckIn L u d ts = L := by
  unfold findShift at h
  rw [List.find?_eq_none] at h
  unfold updateCheckIn
  conv_rhs => rw [← List.map_id L]
  apply List.map_congr_left
  intro s hs
  have hns : ¬(s.user_id = u ∧ s.work_date = d) := by simpa using h s hs
  simp only [if_neg hns, id]

theorem findShift_updateCheckIn_other (L : Ledger) (u : Nat) (d : Date) (ts : Int)
    (u' : Nat) (d' : Date) (hne : ¬(u' = u ∧ d' = d)) :
    findShift (updateCheckIn L u d ts) u' d' = findShift L u' d' := by
  unfold findShift updateCheckIn
  rw [List.find?_map]
  have hp : ((fun s : Shift => decide (s.user_id = u' ∧ s.work_date = d')) ∘
      (fun s : Shift => if s.user_id = u ∧ s.work_date = d
        then { s with check_in := some ts } else s))
      = fun s : Shift => decide (s.user_id = u' ∧ s.work_date = d') := by
    funext s
    by_cases h : s.user_id = u ∧ s.work_date = d
    · simp [h]
    · simp only [Function.comp_apply, if_neg h]
  rw [hp]
  cases hfind : List.find? (fun s : Shift => decide (s.user_id = u' ∧ s.work_date = d')) L with
  | none => rfl
  | some s =>
      have hps := List.find?_some hfind
      simp at hps
      have : ¬(s.user_id = u ∧ s.work_date = d) := by
        rintro ⟨h1, h2⟩
        exact hne ⟨by rw [← hps.1, h1], by rw [← hps.2, h2]⟩
      simp [this]

theorem findShift_updateCheckOut_other (L : Ledger) (u : Nat) (d : Date) (ts : Int)
    (u' : Nat) (d' : Date) (hne : ¬(u' = u ∧ d' = d)) :
    findShift (updateCheckOut L u d ts) u' d' = findShift L u' d' := by
  unfold findShift updateCheckOut
  rw [List.find?_map]
  have hp : ((fun s : Shift => decide (s.user_id = u' ∧ s.work_date = d')) ∘
      (fun s : Shift => if s.user_id = u ∧ s.work_date = d
        then { s with check_out := some ts } else s))
      = fun s : Shift => decide (s.user_id = u' ∧ s.work_date = d') := by
    funext s
    by_cases h : s.user_id = u ∧ s.work_date = d
    · simp [h]
    · simp only [Function.comp_apply, if_neg h]
  rw [hp]
  cases hfind : List.find? (fun s : Shift => decide (s.user_id = u' ∧ s.work_date = d')) L with
  | none => rfl
  | some s =>
      have hps := List.find?_some hfind
      simp at hps
      have : ¬(s.user_id = u ∧ s.work_date = d) := by
        rintro ⟨h1, h2⟩
        exact hne ⟨by rw [← hps.1, h1], by rw [← hps.2, h2]⟩
      simp [this]

theorem findShift_key (L : Ledger) (u : Nat) (d : Date) (s : Shift)
    (h : findShift L u d = some s) : s.user_id = u ∧ s.work_date = d := by
  have := List.find?_some h
  simpa using this

/-- C1: when the shift row for (userId, workDate) already has a check-in set,
`set_check_in` rejects with the `AlreadyCheckedIn` message and returns the
table unchanged; when the row exists with check-in unset, it returns Ok, the
row now carries the given timestamp as its check-in (check-out untouched),
and rows under every other key are unchanged. -/
theorem claim_C1 (L : Ledger) (u : Nat) (d : Date) (ts : Int) (s : Shift)
    (hfind : findShift L u d = some s) :
    (s.check_in.isSome → set_check_in L u d ts = ((false, Msg.alreadyCheckedIn), L)) ∧
    (s.check_in = none →
      (set_check_in L u d ts).1 = (true, Msg.ok) ∧
      findShift (set_check_in L u d ts).2 u d = some { s with check_in := some ts } ∧
      ∀ u' d', ¬(u' = u ∧ d' = d) →
        findShift (set_check_in L u d ts).2 u' d' = findShift L u' d') := by
  constructor
  · intro hin
    unfold set_check_in
    rw [hfind]
    simp [hin]
  · intro hnone
    unfold set_check_in
    rw [hfind]
    simp only [hnone, Option.isSome_none, Bool.false_eq_true, if_false]
    refine ⟨by trivial, ?_, ?_⟩
    · rw [findShift_updateCheckIn, hfind]
      rfl
    · intro u' d' hne
      exact findShift_updateCheckIn_other L u d ts u' d' hne

theorem claim_C1_witness :
    set_check_in [⟨1, ⟨2025, 10, 2⟩, some 100, none⟩] 1 ⟨2025, 10, 2⟩ 200
        = ((false, Msg.alreadyCheckedIn), [⟨1, ⟨2025, 10, 2⟩, some 100, none⟩]) ∧
    (set_check_in [⟨1, ⟨2025, 10, 2⟩, none, none⟩] 1 ⟨2025, 10, 2⟩ 100).1
        = (true, Msg.ok) ∧
    findShift (set_check_in [⟨1, ⟨2025, 10, 2⟩, none, none⟩] 1 ⟨2025, 10, 2⟩ 100).2
        1 ⟨2025, 10, 2⟩ = some ⟨1, ⟨2025, 10, 2⟩, some 100, none⟩ :=
  ⟨(claim_C1 [⟨1, ⟨2025, 10, 2⟩, some 100, none⟩] 1 ⟨2025, 10, 2⟩ 200
      ⟨1, ⟨2025, 10, 2⟩, some 100, none⟩ (by decide)).1 (by decide),
   ((claim_C1 [⟨1, ⟨2025, 10, 2⟩, none, none⟩] 1 ⟨2025, 10, 2⟩ 100
      ⟨1, ⟨2025, 10, 2⟩, none, none⟩ (by decide)).2 (by decide)).1,
   ((claim_C1 [⟨1, ⟨2025, 10, 2⟩, none, none⟩] 1 ⟨2025, 10, 2⟩ 100
      ⟨1, ⟨2025, 10, 2⟩, none, none⟩ (by decide)).2 (by decide)).2.1⟩

/-- C2: `set_check_out` rejects with the `NoCheckIn` message when the row is
absent or its check-in is unset, rejects with `AlreadyCheckedOut` when its
check-out is already set (table unchanged on every rejection), and otherwise
returns Ok with the row's check-out set to the given timestamp and all other
keys unchanged. -/
theorem claim_C2 (L : Ledger) (u : Nat) (d : Date) (ts : Int) :
    (findShift L u d = none → set_check_out L u d ts = ((false, Msg.noCheckIn), L)) ∧
    ∀ s, findShift L u d = some s →
      (s.check_in = none → set_check_out L u d ts = ((false, Msg.noCheckIn), L)) ∧
      (s.check_in.isSome → s.check_out.isSome →
        set_check_out L u d ts = ((false, Msg.alreadyCheckedOut), L)) ∧
      (s.check_in.isSome → s.check_out = none →
        (set_check_out L u d ts).1 = (true, Msg.ok) ∧
        findShift (set_check_out L u d ts).2 u d = some { s with check_out := some ts } ∧
        ∀ u' d', ¬(u' = u ∧ d' = d) →
          findShift (set_check_out L u d ts).2 u' d' = findShift L u' d') := by
  constructor
  · intro hnone
    unfold set_check_out
    rw [hnone]
  · intro s hfind
    refine ⟨?_, ?_, ?_⟩
    · intro hci
      unfold set_check_out
      rw [hfind]
      simp [hci]
    · intro hci hco
      unfold set_check_out
      rw [hfind]
      have : s.check_in.isNone = false := by
        cases h : s.check_in <;> simp_all
      simp [this, hco]
    · intro hci hco
      unfold set_check_out
      rw [hfind]
      have h1 : s.check_in.isNone = false := by
        cases h : s.check_in <;> simp_all
      have h2 : s.check_out.isSome = false := by simp [hco]
      simp only [h1, h2, Bool.false_eq_true, if_false]
      refine ⟨by trivial, ?_, ?_⟩
      · rw [findShift_updateCheckOut, hfind]
        rfl
      · intro u' d' hne
        exact findShift_updateCheckOut_other L u d ts u' d' hne

theorem claim_C2_witness :
    set_check_out [] 1 ⟨2025, 10, 2⟩ 300 = ((false, Msg.noCheckIn), []) ∧
    set_check_out [⟨1, ⟨2025, 10, 2⟩, none, none⟩] 1 ⟨2025, 10, 2⟩ 300
        = ((false, Msg.noCheckIn), [⟨1, ⟨2025, 10, 2⟩, none, none⟩]) ∧
    set_check_out [⟨1, ⟨2025, 10, 2⟩, some 100, some 200⟩] 1 ⟨2025, 10, 2⟩ 300
        = ((false, Msg.alreadyCheckedOut), [⟨1, ⟨2025, 10, 2⟩, some 100, some 200⟩]) ∧
    (set_check_out [⟨1, ⟨2025, 10, 2⟩, some 100, none⟩] 1 ⟨2025, 10, 2⟩ 300).1
        = (true, Msg.ok) ∧
    findShift (set_check_out [⟨1, ⟨2025, 10, 2⟩, some 100, none⟩] 1 ⟨2025, 10, 2⟩ 300).2
        1 ⟨2025, 10, 2⟩ = some ⟨1, ⟨2025, 10, 2⟩, some 100, some 300⟩ :=
  ⟨(claim_C2 [] 1 ⟨2025, 10, 2⟩ 300).1 (by decide),
   ((claim_C2 [⟨1, ⟨2025, 10, 2⟩, none, none⟩] 1 ⟨2025, 10, 2⟩ 300).2
      ⟨1, ⟨2025, 10, 2⟩, none, none⟩ (by decide)).1 (by decide),
   (((claim_C2 [⟨1, ⟨2025, 10, 2⟩, some 100, some 200⟩] 1 ⟨2025, 10, 2⟩ 300).2
      ⟨1, ⟨2025, 10, 2⟩, some 100, some 200⟩ (by decide)).2.1 (by decide) (by decide)),
   ((((claim_C2 [⟨1, ⟨2025, 10, 2⟩, some 100, none⟩] 1 ⟨2025, 10, 2⟩ 300).2
      ⟨1, ⟨2025, 10, 2⟩, some 100, none⟩ (by decide)).2.2 (by decide) (by decide)).1),
   ((((claim_C2 [⟨1, ⟨2025, 10, 2⟩, some 100, none⟩] 1 ⟨2025, 10, 2⟩ 300).2
      ⟨1, ⟨2025, 10, 2⟩, some 100, none⟩ (by decide)).2.2 (by decide) (by decide)).2.1)⟩

/-- C10: when no shift row exists for the key, `set_check_in` still reports
success (`True, OK`) although its UPDATE matched no row: the table is
unchanged, no row is created, and a subsequent read still finds nothing. -/
theorem claim_C10 (L : Ledger) (u : Nat) (d : Date) (ts : Int)
    (h : findShift L u d = none) :
    (set_check_in L u d ts).1 = (true, Msg.ok) ∧
    (set_check_in L u d ts).2 = L ∧
    findShift (set_check_in L u d ts).2 u d = none := by
  have hupd : updateCheckIn L u d ts = L := updateCheckIn_not_found L u d ts h
  unfold set_check_in
  rw [h]
  exact ⟨rfl, hupd, by rw [hupd]; exact h⟩

theorem claim_C10_witness :
    (set_check_in [⟨7, ⟨2025, 1, 5⟩, some 9, none⟩] 1 ⟨2025, 10, 2⟩ 100).1
        = (true, Msg.ok) ∧
    (set_check_in [⟨7, ⟨2025, 1, 5⟩, some 9, none⟩] 1 ⟨2025, 10, 2⟩ 100).2
        = [⟨7, ⟨2025, 1, 5⟩, some 9, none⟩] ∧
    findShift (set_check_in [⟨7, ⟨2025, 1, 5⟩, some 9, none⟩] 1 ⟨2025, 10, 2⟩ 100).2
        1 ⟨2025, 10, 2⟩ = none :=
  claim_C10 [⟨7, ⟨2025, 1, 5⟩, some 9, none⟩] 1 ⟨2025, 10, 2⟩ 100 (by decide)

/-- C9: `get_or_create_shift` is idempotent — when the row already exists the
table is returned unchanged, a repeated call is a no-op, and (starting from a
table respecting the UNIQUE constraint on the key) at most one row for the
key exists afterwards. -/
theorem claim_C9 (L : Ledger) (u : Nat) (d : Date)
    (hcount : countKey L u d ≤ 1) :
    (∀ s, findShift L u d = some s → get_or_create_shift L u d = L) ∧
    get_or_create_shift (get_or_create_shift L u d) u d = get_or_create_shift L u d ∧
    countKey (get_or_create_shift L u d) u d ≤ 1 := by
  refine ⟨?_, ?_, ?_⟩
  · intro s hs
    unfold get_or_create_shift
    rw [hs]
  · unfold get_or_create_shift
    cases hfind : findShift L u d with
    | some s => rw [hfind]
    | none =>
        have : findShift (L ++ [⟨u, d, none, none⟩]) u d = some ⟨u, d, none, none⟩ := by
          unfold findShift at hfind ⊢
          rw [List.find?_append, hfind]
          simp
        rw [this]
  · unfold get_or_create_shift
    cases hfind : findShift L u d with
    | some s => exact hcount
    | none =>
        have hzero : countKey L u d = 0 := by
          unfold findShift at hfind
          rw [List.find?_eq_none] at hfind
          unfold countKey
          rw [List.length_eq_zero]
          rw [List.filter_eq_nil_iff]
          exact hfind
        unfold countKey at hzero ⊢
        rw [List.filter_append, List.length_append, hzero]
        simp

theorem claim_C9_witness :
    get_or_create_shift [⟨1, ⟨2025, 10, 2⟩, some 100, none⟩] 1 ⟨2025, 10, 2⟩
        = [⟨1, ⟨2025, 10, 2⟩, some 100, none⟩] ∧
    get_or_create_shift (get_or_create_shift [] 1 ⟨2025, 10, 2⟩) 1 ⟨2025, 10, 2⟩
        = get_or_create_shift [] 1 ⟨2025, 10, 2⟩ ∧
    countKey (get_or_create_shift [] 1 ⟨2025, 10, 2⟩) 1 ⟨2025, 10, 2⟩ ≤ 1 :=
  ⟨(claim_C9 [⟨1, ⟨2025, 10, 2⟩, some 100, none⟩] 1 ⟨2025, 10, 2⟩ (by decide)).1
      ⟨1, ⟨2025, 10, 2⟩, some 100, none⟩ (by decide),
   (claim_C9 [] 1 ⟨2025, 10, 2⟩ (by decide)).2.1,
   (claim_C9 [] 1 ⟨2025, 10, 2⟩ (by decide)).2.2⟩

/-- C4: `_minutes_between` is 0 when either endpoint is absent; for present
endpoints with checkOut ≥ checkIn it is the floor of the second difference
divided by 60 (Nat division of the nonnegative difference); for checkOut <
checkIn the negative interval is clamped to 0, not raised. -/
theorem claim_C4 :
    (∀ co, _minutes_between none co = 0) ∧
    (∀ ci, _minutes_between ci none = 0) ∧
    (∀ ci co : Int, ci ≤ co →
      _minutes_between (some ci) (some co) = (((co - ci).toNat / 60 : Nat) : Int)) ∧
    (∀ ci co : Int, co < ci → _minutes_between (some ci) (some co) = 0) := by
  refine ⟨fun co => rfl, fun ci => ?_, fun ci co h => ?_, fun ci co h => ?_⟩
  · cases ci <;> rfl
  · have hmb : _minutes_between (some ci) (some co) = max (Int.fdiv (co - ci) 60) 0 := rfl
    rw [hmb, Int.fdiv_eq_ediv _ (by norm_num)]
    have h2 : 0 ≤ (co - ci) / 60 := by omega
    rw [max_eq_left h2]
    omega
  · have hmb : _minutes_between (some ci) (some co) = max (Int.fdiv (co - ci) 60) 0 := rfl
    rw [hmb, Int.fdiv_eq_ediv _ (by norm_num)]
    have h2 : (co - ci) / 60 ≤ 0 := by omega
    rw [max_eq_right h2]

theorem claim_C4_witness :
    _minutes_between (some 100) (some 30700) = (((30700 - 100 : Int).toNat / 60 : Nat) : Int) ∧
    _minutes_between (some 100) (some 50) = 0 :=
  ⟨claim_C4.2.2.1 100 30700 (by decide), claim_C4.2.2.2 100 50 (by decide)⟩

theorem mono_refl (L : Ledger) : mono L L :=
  fun _ _ s hs => ⟨s, hs, fun _ hv => hv, fun _ hv => hv⟩

theorem mono_trans {L1 L2 L3 : Ledger} (h12 : mono L1 L2) (h23 : mono L2 L3) :
    mono L1 L3 := by
  intro u d s hs
  obtain ⟨s', hs', hin', hout'⟩ := h12 u d s hs
  obtain ⟨s'', hs'', hin'', hout''⟩ := h23 u d s' hs'
  exact ⟨s'', hs'', fun v hv => hin'' v (hin' v hv), fun v hv => hout'' v (hout' v hv)⟩

theorem updIn_user_id (u : Nat) (d : Date) (ts : Int) (s : Shift) :
    ((if s.user_id = u ∧ s.work_date = d
      then { s with check_in := some ts } else s) : Shift).user_id = s.user_id := by
  by_cases hx : s.user_id = u ∧ s.work_date = d <;> simp [hx]

theorem updIn_work_date (u : Nat) (d : Date) (ts : Int) (s : Shift) :
    ((if s.user_id = u ∧ s.work_date = d
      then { s with check_in := some ts } else s) : Shift).work_date = s.work_date := by
  by_cases hx : s.user_id = u ∧ s.work_date = d <;> simp [hx]

theorem updOut_user_id (u : Nat) (d : Date) (ts : Int) (s : Shift) :
    ((if s.user_id = u ∧ s.work_date = d
      then { s with check_out := some ts } else s) : Shift).user_id = s.user_id := by
  by_cases hx : s.user_id = u ∧ s.work_date = d <;> simp [hx]

theorem updOut_work_date (u : Nat) (d : Date) (ts : Int) (s : Shift) :
    ((if s.user_id = u ∧ s.work_date = d
      then { s with check_out := some ts } else s) : Shift).work_date = s.work_date := by
  by_cases hx : s.user_id = u ∧ s.work_date = d <;> simp [hx]

theorem keysUnique_updateCheckIn (L : Ledger) (u : Nat) (d : Date) (ts : Int)
    (h : keysUnique L) : keysUnique (updateCheckIn L u d ts) := by
  unfold keysUnique updateCheckIn at *
  rw [List.pairwise_map]
  apply h.imp
  intro a b hab hcon
  apply hab
  refine ⟨?_, ?_⟩
  · rw [← updIn_user_id u d ts a, hcon.1, updIn_user_id u d ts b]
  · rw [← updIn_work_date u d ts a, hcon.2, updIn_work_date u d ts b]

theorem keysUnique_updateCheckOut (L : Ledger) (u : Nat) (d : Date) (ts : Int)
    (h : keysUnique L) : keysUnique (updateCheckOut L u d ts) := by
  unfold keysUnique updateCheckOut at *
  rw [List.pairwise_map]
  apply h.imp
  intro a b hab hcon
  apply hab
  refine ⟨?_, ?_⟩
  · rw [← updOut_user_id u d ts a, hcon.1, updOut_user_id u d ts b]
  · rw [← updOut_work_date u d ts a, hcon.2, updOut_work_date u d ts b]

theorem coInv_updateCheckIn (L : Ledger) (u : Nat) (d : Date) (ts : Int)
    (h : coInv L) : coInv (updateCheckIn L u d ts) := by
  intro s hs hco
  unfold updateCheckIn at hs
  rw [List.mem_map] at hs
  obtain ⟨t, ht, rfl⟩ := hs
  by_cases hk : t.user_id = u ∧ t.work_date = d
  · simp [hk]
  · rw [if_neg hk] at hco ⊢
    exact h t ht hco

/-- With unique keys, a member matching a key is exactly what `findShift`
returns for that key. -/
theorem findShift_eq_of_mem (L : Ledger) (u : Nat) (d : Date)
    (hU : keysUnique L) (t : Shift) (ht : t ∈ L)
    (hk : t.user_id = u ∧ t.work_date = d) : findShift L u d = some t := by
  induction L with
  | nil => cases ht
  | cons a rest ih =>
      rw [keysUnique, List.pairwise_cons] at hU
      cases ht with
      | head =>
          unfold findShift
          rw [List.find?_cons]
          simp [hk.1, hk.2]
      | tail _ hmem =>
          by_cases ha : a.user_id = u ∧ a.work_date = d
          · exact absurd ⟨ha.1.trans hk.1.symm, ha.2.trans hk.2.symm⟩ (hU.1 t hmem)
          · unfold findShift at ih ⊢
            rw [List.find?_cons]
            have : (decide (a.user_id = u ∧ a.work_date = d)) = false := by
              simpa using ha
            rw [this]
            exact ih hU.2 hmem

theorem coInv_set_check_out (L : Ledger) (u : Nat) (d : Date) (ts : Int)
    (hU : keysUnique L) (h : coInv L) (s : Shift)
    (hfind : findShift L u d = some s) (hci : s.check_in.isSome) :
    coInv (updateCheckOut L u d ts) := by
  intro t ht hco
  unfold updateCheckOut at ht
  rw [List.mem_map] at ht
  obtain ⟨t0, ht0, rfl⟩ := ht
  by_cases hk : t0.user_id = u ∧ t0.work_date = d
  · have : findShift L u d = some t0 := findShift_eq_of_mem L u d hU t0 ht0 hk
    have ht0s : t0 = s := by
      rw [this] at hfind
      exact Option.some.inj hfind
    rw [if_pos hk]
    simpa [ht0s] using hci
  · rw [if_neg hk] at hco ⊢
    exact h t0 ht0 hco

theorem invariants_applyOp (L : Ledger) (op : Op)
    (hU : keysUnique L) (hC : coInv L) :
    keysUnique (applyOp L op) ∧ coInv (applyOp L op) := by
  cases op with
  | ensure u d =>
      simp only [applyOp]
      unfold get_or_create_shift
      cases hfind : findShift L u d with
      | some s => exact ⟨hU, hC⟩
      | none =>
          constructor
          · unfold keysUnique at *
            rw [List.pairwise_append]
            refine ⟨hU, by simp, ?_⟩
            intro a ha b hb
            rw [List.mem_singleton] at hb
            subst hb
            unfold findShift at hfind
            rw [List.find?_eq_none] at hfind
            have hna : ¬(a.user_id = u ∧ a.work_date = d) := by
              simpa using hfind a ha
            rintro ⟨h1, h2⟩
            exact hna ⟨h1, h2⟩
          · intro s hs hco
            rw [List.mem_append] at hs
            cases hs with
            | inl h => exact hC s h hco
            | inr h =>
                rw [List.mem_singleton] at h
                subst h
                simp at hco
  | checkin u d ts =>
      simp only [applyOp]
      unfold set_check_in
      cases hfind : findShift L u d with
      | some s =>
          by_cases hin : s.check_in.isSome
          · simp only [hin, if_true]
            exact ⟨hU, hC⟩
          · simp only [hin, Bool.false_eq_true, if_false]
            exact ⟨keysUnique_updateCheckIn L u d ts hU, coInv_updateCheckIn L u d ts hC⟩
      | none =>
          exact ⟨keysUnique_updateCheckIn L u d ts hU, coInv_updateCheckIn L u d ts hC⟩
  | checkout u d ts =>
      simp only [applyOp]
      unfold set_check_out
      cases hfind : findShift L u d with
      | none => exact ⟨hU, hC⟩
      | some s =>
          by_cases h1 : s.check_in.isNone
          · simp only [h1, if_true]
            exact ⟨hU, hC⟩
          · by_cases h2 : s.check_out.isSome
            · simp only [h1, h2, Bool.false_eq_true, if_false, if_true]
              exact ⟨hU, hC⟩
            · simp only [h1, h2, Bool.false_eq_true, if_false]
              have hci : s.check_in.isSome := by
                cases hc : s.check_in
                · rw [hc] at h1
                  simp at h1
                · simp
              exact ⟨keysUnique_updateCheckOut L u d ts hU,
                     coInv_set_check_out L u d ts hU hC s hfind hci⟩

theorem mono_updateCheckIn (L : Ledger) (u0 : Nat) (d0 : Date) (ts : Int)
    (hok : ∀ s0, findShift L u0 d0 = some s0 → s0.check_in = none) :
    mono L (updateCheckIn L u0 d0 ts) := by
  intro u d s hs
  by_cases hk : u = u0 ∧ d = d0
  · obtain ⟨rfl, rfl⟩ := hk
    rw [findShift_updateCheckIn, hs, Option.map_some']
    refine ⟨_, rfl, ?_, ?_⟩
    · intro v hv
      rw [hok s hs] at hv
      cases hv
    · intro v hv
      exact hv
  · rw [findShift_updateCheckIn_other L u0 d0 ts u d hk]
    exact ⟨s, hs, fun _ hv => hv, fun _ hv => hv⟩

theorem mono_updateCheckOut (L : Ledger) (u0 : Nat) (d0 : Date) (ts : Int)
    (hok : ∀ s0, findShift L u0 d0 = some s0 → s0.check_out = none) :
    mono L (updateCheckOut L u0 d0 ts) := by
  intro u d s hs
  by_cases hk : u = u0 ∧ d = d0
  · obtain ⟨rfl, rfl⟩ := hk
    rw [findShift_updateCheckOut, hs, Option.map_some']
    refine ⟨_, rfl, ?_, ?_⟩
    · intro v hv
      exact hv
    · intro v hv
      rw [hok s hs] at hv
      cases hv
  · rw [findShift_updateCheckOut_other L u0 d0 ts u d hk]
    exact ⟨s, hs, fun _ hv => hv, fun _ hv => hv⟩

theorem mono_applyOp (L : Ledger) (op : Op) : mono L (applyOp L op) := by
  cases op with
  | ensure u0 d0 =>
      simp only [applyOp]
      unfold get_or_create_shift
      cases hfind : findShift L u0 d0 with
      | some s => exact mono_refl L
      | none =>
          intro u d s hs
          refine ⟨s, ?_, fun _ hv => hv, fun _ hv => hv⟩
          unfold findShift at hs ⊢
          rw [List.find?_append, hs]
          rfl
  | checkin u0 d0 ts =>
      simp only [applyOp]
      unfold set_check_in
      cases hfind : findShift L u0 d0 with
      | some s0 =>
          by_cases hin : s0.check_in.isSome
          · simp only [hin, if_true]
            exact mono_refl L
          · simp only [hin, Bool.false_eq_true, if_false]
            apply mono_updateCheckIn
            intro s1 hs1
            rw [hfind] at hs1
            cases Option.some.inj hs1
            cases hc : s0.check_in
            · rfl
            · rw [hc] at hin
              simp at hin
      | none =>
          apply mono_updateCheckIn
          intro s1 hs1
          rw [hfind] at hs1
          cases hs1
  | checkout u0 d0 ts =>
      simp only [applyOp]
      unfold set_check_out
      cases hfind : findShift L u0 d0 with
      | none => exact mono_refl L
      | some s0 =>
          by_cases h1 : s0.check_in.isNone
          · simp only [h1, if_true]
            exact mono_refl L
          · by_cases h2 : s0.check_out.isSome
            · simp only [h1, h2, Bool.false_eq_true, if_false, if_true]
              exact mono_refl L
            · simp only [h1, h2, Bool.false_eq_true, if_false]
              apply mono_updateCheckOut
              intro s1 hs1
              rw [hfind] at hs1
              cases Option.some.inj hs1
              cases hc : s0.check_out
              · rfl
              · rw [hc] at h2
                simp at h2

/-- C3: every sequence of ledger operations (`get_or_create_shift`,
`set_check_in`, `set_check_out`), started from a table satisfying the UNIQUE
constraint and the check-out-implies-check-in invariant, preserves both
invariants, and never overwrites an already-set check-in or check-out value
(an attempt to set an already-set field is rejected without applying it). -/
theorem claim_C3 (L : Ledger) (ops : List Op) (hU : keysUnique L) (hC : coInv L) :
    keysUnique (run L ops) ∧ coInv (run L ops) ∧ mono L (run L ops) := by
  induction ops generalizing L with
  | nil => exact ⟨hU, hC, mono_refl L⟩
  | cons op rest ih =>
      have h1 := invariants_applyOp L op hU hC
      have h2 := ih (applyOp L op) h1.1 h1.2
      exact ⟨h2.1, h2.2.1, mono_trans (mono_applyOp L op) h2.2.2⟩

theorem claim_C3_witness :
    keysUnique (run [] [Op.ensure 1 ⟨2025, 10, 2⟩, Op.checkin 1 ⟨2025, 10, 2⟩ 100,
        Op.checkin 1 ⟨2025, 10, 2⟩ 999, Op.checkout 1 ⟨2025, 10, 2⟩ 30700,
        Op.checkout 1 ⟨2025, 10, 2⟩ 999]) ∧
    coInv (run [] [Op.ensure 1 ⟨2025, 10, 2⟩, Op.checkin 1 ⟨2025, 10, 2⟩ 100,
        Op.checkin 1 ⟨2025, 10, 2⟩ 999, Op.checkout 1 ⟨2025, 10, 2⟩ 30700,
        Op.checkout 1 ⟨2025, 10, 2⟩ 999]) ∧
    mono [] (run [] [Op.ensure 1 ⟨2025, 10, 2⟩, Op.checkin 1 ⟨2025, 10, 2⟩ 100,
        Op.checkin 1 ⟨2025, 10, 2⟩ 999, Op.checkout 1 ⟨2025, 10, 2⟩ 30700,
        Op.checkout 1 ⟨2025, 10, 2⟩ 999]) :=
  claim_C3 [] [Op.ensure 1 ⟨2025, 10, 2⟩, Op.checkin 1 ⟨2025, 10, 2⟩ 100,
      Op.checkin 1 ⟨2025, 10, 2⟩ 999, Op.checkout 1 ⟨2025, 10, 2⟩ 30700,
      Op.checkout 1 ⟨2025, 10, 2⟩ 999]
    List.Pairwise.nil (fun s hs => absurd hs (List.not_mem_nil s))

/-- On well-formed dates and a real month, both variants' month filters pick
out the same dates: the spec's half-open window is year/month equality. -/
theorem month_range_iff (d : Date) (year month : Nat) (hwf : wfDate d)
    (hm1 : 1 ≤ month) (hm2 : month ≤ 12) :
    spec_month_range d year month ↔ (d.year = year ∧ d.month = month) := by
  unfold spec_month_range Date.leb Date.ltb wfDate at *
  by_cases h12 : month < 12 <;> simp [h12] <;> omega

theorem clean_pred_eq (u year month : Nat) (s : Shift) :
    (decide (s.user_id = u) && Date.leb (_month_bounds year month).1 s.work_date &&
      Date.ltb s.work_date (_month_bounds year month).2)
    = decide (s.user_id = u ∧ spec_month_range s.work_date year month) := by
  have hb1 : (_month_bounds year month).1 = ⟨year, month, 1⟩ := rfl
  have hb2 : (_month_bounds year month).2
      = (if month < 12 then ⟨year, month + 1, 1⟩ else ⟨year + 1, 1, 1⟩ : Date) := rfl
  rw [hb1, hb2]
  unfold spec_month_range
  rw [Bool.eq_iff_iff]
  simp only [Bool.and_eq_true, decide_eq_true_eq]
  tauto

theorem clean_foldl_eq (l : List Shift) (t : Int) :
    l.foldl (fun total s =>
      match s.check_in, s.check_out with
      | some ci, some co => total + max (Int.fdiv (co - ci) 60) 0
      | _, _ => total) t
    = t + (l.map (fun s => _minutes_between s.check_in s.check_out)).sum := by
  induction l generalizing t with
  | nil => simp
  | cons s rest ih =>
      rw [List.foldl_cons, List.map_cons, List.sum_cons, ih]
      cases hci : s.check_in <;> cases hco : s.check_out <;>
        simp [_minutes_between] <;> ring

theorem siw1_foldl_eq (l : List Shift) (t : Int) :
    l.foldl (fun total s => total + _minutes_between s.check_in s.check_out) t
    = t + (l.map (fun s => _minutes_between s.check_in s.check_out)).sum := by
  induction l generalizing t with
  | nil => simp
  | cons s rest ih =>
      rw [List.foldl_cons, ih, List.map_cons, List.sum_cons]
      ring

/-- C8: for a real month (1..12) and a table of well-formed stored dates,
both variants' `month_minutes_for_user` equal the sum of `_minutes_between`
over exactly the user's shifts whose `work_date` lies in the spec's half-open
window `[year-month-01, next-month-01)` (December rolling to January of
year+1); a shift with an open check-in contributes 0, not a running
duration. -/
theorem claim_C8 (L : Ledger) (u year month : Nat)
    (hm1 : 1 ≤ month) (hm2 : month ≤ 12) (hwf : ∀ s ∈ L, wfDate s.work_date) :
    clean.month_minutes_for_user L u year month
      = ((L.filter (fun s => decide (s.user_id = u ∧
          spec_month_range s.work_date year month))).map
          (fun s => _minutes_between s.check_in s.check_out)).sum
    ∧ siw1.month_minutes_for_user L u year month
      = ((L.filter (fun s => decide (s.user_id = u ∧
          spec_month_range s.work_date year month))).map
          (fun s => _minutes_between s.check_in s.check_out)).sum
    ∧ ∀ s : Shift, s.check_out = none →
        _minutes_between s.check_in s.check_out = 0 := by
  refine ⟨?_, ?_, ?_⟩
  · unfold clean.month_minutes_for_user clean.monthShifts
    rw [clean_foldl_eq]
    rw [List.filter_congr (fun s _ => clean_pred_eq u year month s)]
    ring
  · unfold siw1.month_minutes_for_user siw1.monthShifts
    rw [siw1_foldl_eq]
    have hfe : L.filter (fun s => decide (s.user_id = u ∧ s.work_date.year = year ∧
          s.work_date.month = month))
        = L.filter (fun s => decide (s.user_id = u ∧
          spec_month_range s.work_date year month)) := by
      apply List.filter_congr
      intro s hs
      have hiff := month_range_iff s.work_date year month (hwf s hs) hm1 hm2
      simp [hiff]
    rw [hfe]
    ring
  · intro s hco
    rw [hco]
    cases s.check_in <;> rfl

theorem claim_C8_witness :
    clean.month_minutes_for_user
        [⟨1, ⟨2025, 10, 2⟩, some 32400, some 63000⟩,
         ⟨1, ⟨2025, 10, 3⟩, some 33300, none⟩] 1 2025 10
      = (([⟨1, ⟨2025, 10, 2⟩, some 32400, some 63000⟩,
           ⟨1, ⟨2025, 10, 3⟩, some 33300, none⟩].filter
            (fun s : Shift => decide (s.user_id = 1 ∧
              spec_month_range s.work_date 2025 10))).map
          (fun s => _minutes_between s.check_in s.check_out)).sum
    ∧ siw1.month_minutes_for_user
        [⟨1, ⟨2025, 10, 2⟩, some 32400, some 63000⟩,
         ⟨1, ⟨2025, 10, 3⟩, some 33300, none⟩] 1 2025 10
      = (([⟨1, ⟨2025, 10, 2⟩, some 32400, some 63000⟩,
           ⟨1, ⟨2025, 10, 3⟩, some 33300, none⟩].filter
            (fun s : Shift => decide (s.user_id = 1 ∧
              spec_month_range s.work_date 2025 10))).map
          (fun s => _minutes_between s.check_in s.check_out)).sum
    ∧ ∀ s : Shift, s.check_out = none →
        _minutes_between s.check_in s.check_out = 0 :=
  claim_C8 [⟨1, ⟨2025, 10, 2⟩, some 32400, some 63000⟩,
      ⟨1, ⟨2025, 10, 3⟩, some 33300, none⟩] 1 2025 10
    (by decide) (by decide) (by decide)

/-! Claim C5: `month_days_for_user`. -/

theorem clean_entry_iff (s : Shift) (e : DayEntry) :
    (match s.check_in, s.check_out with
      | some ci, some co =>
          some (⟨s.work_date, max (Int.fdiv (co - ci) 60) 0⟩ : DayEntry)
      | _, _ => none) = some e
    ↔ (s.check_in.isSome ∧ s.check_out.isSome ∧
        e = ⟨s.work_date, _minutes_between s.check_in s.check_out⟩) := by
  cases hci : s.check_in <;> cases hco : s.check_out <;>
    simp [_minutes_between, eq_comm]

theorem siw1_entry_iff (s : Shift) (e : DayEntry) :
    (if _minutes_between s.check_in s.check_out > 0
      then some (⟨s.work_date, _minutes_between s.check_in s.check_out⟩ : DayEntry)
      else none) = some e
    ↔ (0 < _minutes_between s.check_in s.check_out ∧
        e = ⟨s.work_date, _minutes_between s.check_in s.check_out⟩) := by
  by_cases h : _minutes_between s.check_in s.check_out > 0 <;>
    simp [h, eq_comm]

/-- Rows of a user-restricted, uniquely-keyed selection have pairwise
distinct dates (in any order of the selection). -/
theorem pairwise_dates (L : Ledger) (u : Nat) (p : Shift → Bool)
    (hu : ∀ s, p s = true → s.user_id = u) (hU : keysUnique L) :
    (List.insertionSort byDate (L.filter p)).Pairwise
      (fun a b => a.work_date ≠ b.work_date) := by
  have h1 : (L.filter p).Pairwise
      (fun a b => ¬(a.user_id = b.user_id ∧ a.work_date = b.work_date)) :=
    hU.filter p
  have hsym : ∀ {x y : Shift},
      ¬(x.user_id = y.user_id ∧ x.work_date = y.work_date) →
      ¬(y.user_id = x.user_id ∧ y.work_date = x.work_date) :=
    fun h hc => h ⟨hc.1.symm, hc.2.symm⟩
  have h2 : (List.insertionSort byDate (L.filter p)).Pairwise
      (fun a b => ¬(a.user_id = b.user_id ∧ a.work_date = b.work_date)) :=
    ((List.perm_insertionSort byDate (L.filter p)).pairwise_iff hsym).mpr h1
  apply h2.imp_of_mem
  intro a b ha hb hR heq
  rw [List.mem_insertionSort, List.mem_filter] at ha hb
  exact hR ⟨(hu a ha.2).trans (hu b hb.2).symm, heq⟩

/-- C5 as stated is false on shiftbot_clean: a closed shift with 0 computed
minutes yields a `{date, minutes := 0}` entry rather than being omitted. -/
theorem claim_C5_counterexample :
    clean.month_days_for_user [⟨1, ⟨2025, 10, 2⟩, some 0, some 0⟩] 1 2025 10
      = [⟨⟨2025, 10, 2⟩, 0⟩] ∧ ¬((0 : Int) > 0) := by decide

/-- C5 amended: in shiftbot_admin_siw1_rd3 the claim holds as stated — the
entries are exactly the month's shifts with positive computed minutes (hence
closed), one entry per shift (distinct dates under the UNIQUE key constraint)
and date-ascending; in shiftbot_clean every *closed* shift of the month
yields an entry, including zero-minute ones (only open and empty shifts are
omitted), again one per shift and date-ascending. -/
theorem claim_C5_amended (L : Ledger) (u year month : Nat) (hU : keysUnique L) :
    (∀ e : DayEntry, e ∈ siw1.month_days_for_user L u year month ↔
      ∃ s ∈ L, s.user_id = u ∧ s.work_date.year = year ∧ s.work_date.month = month ∧
        0 < _minutes_between s.check_in s.check_out ∧
        e = ⟨s.work_date, _minutes_between s.check_in s.check_out⟩) ∧
    (siw1.month_days_for_user L u year month).Pairwise
      (fun a b => Date.leb a.date b.date = true) ∧
    (siw1.month_days_for_user L u year month).Pairwise (fun a b => a.date ≠ b.date) ∧
    (∀ e : DayEntry, e ∈ clean.month_days_for_user L u year month ↔
      ∃ s ∈ L, s.user_id = u ∧ spec_month_range s.work_date year month ∧
        s.check_in.isSome ∧ s.check_out.isSome ∧
        e = ⟨s.work_date, _minutes_between s.check_in s.check_out⟩) ∧
    (clean.month_days_for_user L u year month).Pairwise
      (fun a b => Date.leb a.date b.date = true) ∧
    (clean.month_days_for_user L u year month).Pairwise (fun a b => a.date ≠ b.date) := by
  have hsorted_s : (List.insertionSort byDate (siw1.monthShifts L u year month)).Pairwise byDate :=
    List.sorted_insertionSort byDate _
  have hsorted_c : (List.insertionSort byDate (clean.monthShifts L u year month)).Pairwise byDate :=
    List.sorted_insertionSort byDate _
  refine ⟨?_, ?_, ?_, ?_, ?_, ?_⟩
  · intro e
    unfold siw1.month_days_for_user
    rw [List.mem_filterMap]
    constructor
    · rintro ⟨s, hs, hfs⟩
      rw [List.mem_insertionSort] at hs
      unfold siw1.monthShifts at hs
      rw [List.mem_filter] at hs
      have hp := hs.2
      simp only [decide_eq_true_eq] at hp
      rw [siw1_entry_iff] at hfs
      exact ⟨s, hs.1, hp.1, hp.2.1, hp.2.2, hfs.1, hfs.2⟩
    · rintro ⟨s, hsL, hu, hy, hm, hpos, he⟩
      refine ⟨s, ?_, ?_⟩
      · rw [List.mem_insertionSort]
        unfold siw1.monthShifts
        rw [List.mem_filter]
        exact ⟨hsL, by simp [hu, hy, hm]⟩
      · rw [siw1_entry_iff]
        exact ⟨hpos, he⟩
  · unfold siw1.month_days_for_user
    rw [List.pairwise_filterMap]
    apply hsorted_s.imp
    intro a b hab x hx y hy
    rw [Option.mem_def] at hx hy
    rw [siw1_entry_iff] at hx hy
    rw [hx.2, hy.2]
    exact hab
  · unfold siw1.month_days_for_user
    rw [List.pairwise_filterMap]
    have hpd := pairwise_dates L u
      (fun s => decide (s.user_id = u ∧ s.work_date.year = year ∧
        s.work_date.month = month))
      (fun s hp => by simpa using (of_decide_eq_true hp).1) hU
    apply hpd.imp
    intro a b hab x hx y hy
    rw [Option.mem_def] at hx hy
    rw [siw1_entry_iff] at hx hy
    rw [hx.2, hy.2]
    simpa using hab
  · intro e
    unfold clean.month_days_for_user
    rw [List.mem_filterMap]
    constructor
    · rintro ⟨s, hs, hfs⟩
      rw [List.mem_insertionSort] at hs
      unfold clean.monthShifts at hs
      rw [List.mem_filter, clean_pred_eq] at hs
      have hp := hs.2
      simp only [decide_eq_true_eq] at hp
      rw [clean_entry_iff] at hfs
      exact ⟨s, hs.1, hp.1, hp.2, hfs.1, hfs.2.1, hfs.2.2⟩
    · rintro ⟨s, hsL, hu, hrange, hci, hco, he⟩
      refine ⟨s, ?_, ?_⟩
      · rw [List.mem_insertionSort]
        unfold clean.monthShifts
        rw [List.mem_filter, clean_pred_eq]
        exact ⟨hsL, by simp [hu, hrange]⟩
      · rw [clean_entry_iff]
        exact ⟨hci, hco, he⟩
  · unfold clean.month_days_for_user
    rw [List.pairwise_filterMap]
    apply hsorted_c.imp
    intro a b hab x hx y hy
    rw [Option.mem_def] at hx hy
    rw [clean_entry_iff] at hx hy
    rw [hx.2.2, hy.2.2]
    exact hab
  · unfold clean.month_days_for_user
    rw [List.pairwise_filterMap]
    have hpd := pairwise_dates L u
      (fun s => decide (s.user_id = u) &&
        Date.leb (_month_bounds year month).1 s.work_date &&
        Date.ltb s.work_date (_month_bounds year month).2)
      (fun s hp => by
        have hp2 : (decide (s.user_id = u) &&
            Date.leb (_month_bounds year month).1 s.work_date &&
            Date.ltb s.work_date (_month_bounds year month).2) = true := hp
        rw [clean_pred_eq] at hp2
        exact (of_decide_eq_true hp2).1) hU
    apply hpd.imp
    intro a b hab x hx y hy
    rw [Option.mem_def] at hx hy
    rw [clean_entry_iff] at hx hy
    rw [hx.2.2, hy.2.2]
    simpa using hab

theorem claim_C5_amended_witness :
    ((⟨⟨2025, 10, 2⟩, 510⟩ : DayEntry) ∈ siw1.month_days_for_user
        [⟨1, ⟨2025, 10, 2⟩, some 32400, some 63000⟩,
         ⟨1, ⟨2025, 10, 3⟩, some 33300, none⟩] 1 2025 10 ↔
      ∃ s ∈ [⟨1, ⟨2025, 10, 2⟩, some 32400, some 63000⟩,
          (⟨1, ⟨2025, 10, 3⟩, some 33300, none⟩ : Shift)], s.user_id = 1 ∧
        s.work_date.year = 2025 ∧ s.work_date.month = 10 ∧
        0 < _minutes_between s.check_in s.check_out ∧
        (⟨⟨2025, 10, 2⟩, 510⟩ : DayEntry)
          = ⟨s.work_date, _minutes_between s.check_in s.check_out⟩) ∧
    (siw1.month_days_for_user
        [⟨1, ⟨2025, 10, 2⟩, some 32400, some 63000⟩,
         ⟨1, ⟨2025, 10, 3⟩, some 33300, none⟩] 1 2025 10).Pairwise
      (fun a b => a.date ≠ b.date) :=
  ⟨(claim_C5_amended [⟨1, ⟨2025, 10, 2⟩, some 32400, some 63000⟩,
      ⟨1, ⟨2025, 10, 3⟩, some 33300, none⟩] 1 2025 10 (by decide)).1
      ⟨⟨2025, 10, 2⟩, 510⟩,
   (claim_C5_amended [⟨1, ⟨2025, 10, 2⟩, some 32400, some 63000⟩,
      ⟨1, ⟨2025, 10, 3⟩, some 33300, none⟩] 1 2025 10 (by decide)).2.2.1⟩

/-- C7 as stated is false on shiftbot_clean: with radius 100 m, a point at
computed distance 100.5 m (strictly beyond the radius) is reported inside,
because `int()` truncates the distance to 100 before the comparison. -/
theorem claim_C7_counterexample :
    (clean_inside (201 / 2) 100).1 = true ∧ ¬((201 / 2 : ℚ) ≤ 100) := by
  constructor
  · unfold clean_inside pyint
    have h0 : (0 : ℚ) ≤ 201 / 2 := by norm_num
    rw [if_pos h0]
    have hf : ⌊(201 / 2 : ℚ)⌋ = 100 := by
      rw [Int.floor_eq_iff]
      constructor <;> norm_num
    rw [hf]
    norm_num
  · norm_num

/-- C7 amended: shiftbot_admin_siw1_rd3's verdict is boundary-inclusive on
the computed distance exactly as claimed (`inside ↔ dist ≤ radius`);
shiftbot_clean truncates the distance to whole metres first, so its verdict
is `inside ↔ ⌊dist⌋ ≤ radius` — a point less than one metre beyond the
radius can still be inside.  In both variants a point at distance exactly
the (nonnegative) radius is inside and a point a full metre beyond is
outside. -/
theorem claim_C7_amended :
    (∀ dist radius : ℚ, ((_inside_geofence dist radius).1 = true ↔ dist ≤ radius)) ∧
    (∀ dist radius : ℚ, 0 ≤ dist →
      ((clean_inside dist radius).1 = true ↔ ((⌊dist⌋ : ℚ) ≤ radius))) ∧
    (∀ radius : ℚ, 0 ≤ radius →
      (_inside_geofence radius radius).1 = true ∧
      (clean_inside radius radius).1 = true) ∧
    (∀ radius : ℚ, 0 ≤ radius →
      (_inside_geofence (radius + 1) radius).1 = false ∧
      (clean_inside (radius + 1) radius).1 = false) := by
  refine ⟨?_, ?_, ?_, ?_⟩
  · intro dist radius
    unfold _inside_geofence
    simp
  · intro dist radius h0
    unfold clean_inside pyint
    rw [if_pos h0]
    simp
  · intro radius h0
    refine ⟨by unfold _inside_geofence; simp, ?_⟩
    unfold clean_inside pyint
    rw [if_pos h0]
    simp only [decide_eq_true_eq]
    exact Int.floor_le radius
  · intro radius h0
    constructor
    · unfold _inside_geofence
      simp only [decide_eq_false_iff_not, not_le]
      linarith
    · unfold clean_inside pyint
      rw [if_pos (by linarith)]
      simp only [decide_eq_false_iff_not, not_le]
      rw [Int.floor_add_one]
      push_cast
      have := Int.lt_floor_add_one radius
      linarith

theorem claim_C7_amended_witness :
    ((_inside_geofence 100 100).1 = true ↔ (100 : ℚ) ≤ 100) ∧
    ((clean_inside 100 100).1 = true ↔ ((⌊(100 : ℚ)⌋ : ℚ) ≤ 100)) ∧
    (_inside_geofence 100 100).1 = true ∧
    (clean_inside 100 100).1 = true ∧
    (_inside_geofence (100 + 1) 100).1 = false ∧
    (clean_inside (100 + 1) 100).1 = false :=
  ⟨claim_C7_amended.1 100 100,
   claim_C7_amended.2.1 100 100 (by decide),
   (claim_C7_amended.2.2.1 100 (by decide)).1,
   (claim_C7_amended.2.2.1 100 (by decide)).2,
   (claim_C7_amended.2.2.2 100 (by decide)).1,
   (claim_C7_amended.2.2.2 100 (by decide)).2⟩

theorem bump_minsOf (agg : List UserMinutes) (uid' : Nat) (name : String)
    (dept : Option String) (m : Int) (uid : Nat) :
    minsOf (bump agg uid' name dept m) uid
    = if uid = uid' then
        (match minsOf agg uid with
         | some v => some (v + m)
         | none => some m)
      else minsOf agg uid := by
  unfold bump minsOf
  by_cases hany : agg.any (fun r => decide (r.user_id = uid')) = true
  · rw [if_pos hany, List.find?_map]
    have hp : ((fun r : UserMinutes => decide (r.user_id = uid)) ∘
        (fun r : UserMinutes => if r.user_id = uid'
          then { r with minutes := r.minutes + m } else r))
        = fun r : UserMinutes => decide (r.user_id = uid) := by
      funext r
      by_cases h : r.user_id = uid' <;> simp [h]
    rw [hp]
    by_cases huid : uid = uid'
    · subst huid
      rw [if_pos rfl]
      rw [List.any_eq_true] at hany
      obtain ⟨r1, hr1m, hr1p⟩ := hany
      have hex : ∃ x ∈ agg,
          (fun r : UserMinutes => decide (r.user_id = uid)) x = true :=
        ⟨r1, hr1m, hr1p⟩
      obtain ⟨r0, hr0⟩ := Option.isSome_iff_exists.mp
        (List.find?_isSome.mpr hex)
      rw [hr0]
      have hr0p : r0.user_id = uid := by
        simpa using List.find?_some hr0
      simp [hr0p]
    · rw [if_neg huid]
      cases hfind : agg.find? (fun r : UserMinutes => decide (r.user_id = uid)) with
      | none => rfl
      | some r0 =>
          have hr0p : r0.user_id = uid := by
            simpa using List.find?_some hfind
          have : ¬(r0.user_id = uid') := by
            rw [hr0p]
            exact huid
          simp [this]
  · rw [if_neg hany, List.find?_append]
    have hnone : agg.find? (fun r : UserMinutes => decide (r.user_id = uid')) = none := by
      rw [List.find?_eq_none]
      intro x hx
      intro hdx
      exact hany (List.any_eq_true.mpr ⟨x, hx, hdx⟩)
    by_cases huid : uid = uid'
    · subst huid
      rw [if_pos rfl, hnone]
      simp
    · rw [if_neg huid]
      have hnew : List.find? (fun r : UserMinutes => decide (r.user_id = uid))
          [⟨uid', name, dept, m⟩] = none := by
        rw [List.find?_eq_none]
        intro x hx
        rw [List.mem_singleton] at hx
        subst hx
        simpa using fun h => huid h.symm
      rw [hnew]
      cases agg.find? (fun r : UserMinutes => decide (r.user_id = uid)) <;> rfl

theorem minsOf_aggStep (f : Shift × User → Option Int)
    (agg : List UserMinutes) (r : Shift × User) (uid : Nat) :
    minsOf (aggStep f agg r) uid
    = if uid = r.1.user_id ∧ (f r).isSome = true then
        (match minsOf agg uid with
         | some v => some (v + (f r).getD 0)
         | none => some ((f r).getD 0))
      else minsOf agg uid := by
  unfold aggStep
  cases hf : f r with
  | none => simp
  | some m =>
      rw [bump_minsOf]
      by_cases huid : uid = r.1.user_id
      · rw [if_pos huid, if_pos ⟨huid, by simp⟩]
        rfl
      · rw [if_neg huid, if_neg (fun hc => huid hc.1)]

theorem contribSum_nil (f : Shift × User → Option Int) (uid : Nat) :
    contribSum f [] uid = 0 := rfl

theorem contribSum_cons (f : Shift × User → Option Int)
    (r : Shift × User) (rows : List (Shift × User)) (uid : Nat) :
    contribSum f (r :: rows) uid
    = (if r.1.user_id = uid then (f r).getD 0 else 0) + contribSum f rows uid := by
  unfold contribSum
  rw [List.filterMap_cons]
  by_cases huid : r.1.user_id = uid
  · rw [if_pos huid, if_pos huid]
    cases hf : f r with
    | none => simp
    | some m => simp
  · rw [if_neg huid, if_neg huid]
    simp

/-- Central fold lemma: the minutes recorded per user by the aggregation
loop, as a function of the starting state. -/
theorem minsOf_foldl (f : Shift × User → Option Int)
    (rows : List (Shift × User)) (acc : List UserMinutes) (uid : Nat) :
    minsOf (rows.foldl (aggStep f) acc) uid
    = match minsOf acc uid with
      | some v => some (v + contribSum f rows uid)
      | none =>
          if touches f rows uid then some (contribSum f rows uid) else none := by
  induction rows generalizing acc with
  | nil =>
      cases hm : minsOf acc uid with
      | none => simp [touches, hm]
      | some v => simp [contribSum_nil, hm]
  | cons r rows ih =>
      rw [List.foldl_cons, ih, minsOf_aggStep, contribSum_cons]
      have htc : touches f (r :: rows) uid
          = ((decide (r.1.user_id = uid) && (f r).isSome) || touches f rows uid) := by
        unfold touches
        rw [List.any_cons]
      rw [htc]
      by_cases hstep : uid = r.1.user_id ∧ (f r).isSome = true
      · rw [if_pos hstep]
        have hru : r.1.user_id = uid := hstep.1.symm
        have hb : (decide (r.1.user_id = uid) && (f r).isSome) = true := by
          simp [hru, hstep.2]
        rw [hb, Bool.true_or, if_pos hru]
        cases hm : minsOf acc uid <;> simp [add_assoc]
      · rw [if_neg hstep]
        have hb : (decide (r.1.user_id = uid) && (f r).isSome) = false := by
          by_cases hru : r.1.user_id = uid
          · by_cases hfs : (f r).isSome = true
            · exact absurd ⟨hru.symm, hfs⟩ hstep
            · simp [hfs]
          · simp [hru]
        have hz : (if r.1.user_id = uid then (f r).getD 0 else 0) = 0 := by
          by_cases hru : r.1.user_id = uid
          · rw [if_pos hru]
            cases hf : f r with
            | none => rfl
            | some m => exact absurd ⟨hru.symm, by simp [hf]⟩ hstep
          · rw [if_neg hru]
        rw [hb, Bool.false_or, hz, zero_add]

theorem bump_aggKeysUnique (agg : List UserMinutes) (uid : Nat) (name : String)
    (dept : Option String) (m : Int) (h : aggKeysUnique agg) :
    aggKeysUnique (bump agg uid name dept m) := by
  unfold bump
  by_cases hany : agg.any (fun r => decide (r.user_id = uid)) = true
  · rw [if_pos hany]
    unfold aggKeysUnique at *
    rw [List.pairwise_map]
    apply h.imp
    intro a b hab hcon
    apply hab
    have ha : ((if a.user_id = uid then { a with minutes := a.minutes + m }
        else a) : UserMinutes).user_id = a.user_id := by
      by_cases hx : a.user_id = uid <;> simp [hx]
    have hb2 : ((if b.user_id = uid then { b with minutes := b.minutes + m }
        else b) : UserMinutes).user_id = b.user_id := by
      by_cases hx : b.user_id = uid <;> simp [hx]
    rw [← ha, hcon, hb2]
  · rw [if_neg hany]
    unfold aggKeysUnique at *
    rw [List.pairwise_append]
    refine ⟨h, by simp, ?_⟩
    intro a ha b hb
    rw [List.mem_singleton] at hb
    subst hb
    intro hc
    exact hany (List.any_eq_true.mpr ⟨a, ha, by simpa using hc⟩)

theorem aggStep_aggKeysUnique (f : Shift × User → Option Int)
    (agg : List UserMinutes) (r : Shift × User) (h : aggKeysUnique agg) :
    aggKeysUnique (aggStep f agg r) := by
  unfold aggStep
  cases f r with
  | none => exact h
  | some m => exact bump_aggKeysUnique _ _ _ _ _ h

theorem foldl_aggKeysUnique (f : Shift × User → Option Int)
    (rows : List (Shift × User)) (acc : List UserMinutes)
    (h : aggKeysUnique acc) : aggKeysUnique (rows.foldl (aggStep f) acc) := by
  induction rows generalizing acc with
  | nil => exact h
  | cons r rows ih => exact ih _ (aggStep_aggKeysUnique f acc r h)

theorem minsOf_of_mem (agg : List UserMinutes) (hU : aggKeysUnique agg)
    (row : UserMinutes) (hrow : row ∈ agg) :
    minsOf agg row.user_id = some row.minutes := by
  induction agg with
  | nil => cases hrow
  | cons a rest ih =>
      unfold aggKeysUnique at hU
      rw [List.pairwise_cons] at hU
      cases hrow with
      | head =>
          unfold minsOf
          rw [List.find?_cons]
          simp
      | tail _ hmem =>
          have hne : a.user_id ≠ row.user_id := hU.1 row hmem
          unfold minsOf at ih ⊢
          rw [List.find?_cons]
          have hfalse : (decide (a.user_id = row.user_id)) = false := by
            simpa using hne
          rw [hfalse]
          exact ih hU.2 hmem

theorem mem_agg_iff_minsOf (agg : List UserMinutes) (uid : Nat) :
    (∃ row ∈ agg, row.user_id = uid) ↔ (minsOf agg uid).isSome = true := by
  unfold minsOf
  cases hfind : agg.find? (fun r => decide (r.user_id = uid)) with
  | none =>
      rw [List.find?_eq_none] at hfind
      simp only [Option.map_none']
      constructor
      · rintro ⟨row, hrow, hu⟩
        exact absurd (by simpa using hu) (by simpa using hfind row hrow)
      · intro h
        cases h
  | some r0 =>
      have hmem := List.mem_of_find?_eq_some hfind
      have hp : r0.user_id = uid := by simpa using List.find?_some hfind
      simp only [Option.map_some']
      exact ⟨fun _ => rfl, fun _ => ⟨r0, hmem, hp⟩⟩

theorem clean_foldl_is_agg (rows : List (Shift × User)) (acc : List UserMinutes) :
    rows.foldl (fun agg r =>
      match r.1.check_in, r.1.check_out with
      | some ci, some co => bump agg r.1.user_id r.2.full_name r.2.department
          (max (Int.fdiv (co - ci) 60) 0)
      | _, _ => agg) acc
    = rows.foldl (aggStep cleanContrib) acc := by
  apply List.foldl_ext
  intro agg r _
  unfold aggStep cleanContrib
  cases r.1.check_in <;> cases r.1.check_out <;> rfl

theorem siw1_foldl_is_agg (sd : Nat) (ed : Option Nat)
    (rows : List (Shift × User)) (acc : List UserMinutes) :
    rows.foldl (fun agg r =>
      if siw1._in_range sd ed r.1.work_date then
        if _minutes_between r.1.check_in r.1.check_out > 0 then
          bump agg r.1.user_id r.2.full_name r.2.department
            (_minutes_between r.1.check_in r.1.check_out)
        else agg
      else agg) acc
    = rows.foldl (aggStep (siw1Contrib sd ed)) acc := by
  apply List.foldl_ext
  intro agg r _
  unfold aggStep siw1Contrib
  by_cases h1 : siw1._in_range sd ed r.1.work_date = true
  · rw [if_pos h1, if_pos h1]
    by_cases h2 : _minutes_between r.1.check_in r.1.check_out > 0
    · rw [if_pos h2, if_pos h2]
    · rw [if_neg h2, if_neg h2]
  · rw [if_neg h1, if_neg h1]

theorem mb_nonneg (ci co : Option Int) : 0 ≤ _minutes_between ci co := by
  cases ci <;> cases co <;> simp [_minutes_between]

theorem clean_contribSum_eq (rows : List (Shift × User)) (uid : Nat) :
    contribSum cleanContrib rows uid = qualSum rows uid := by
  induction rows with
  | nil => rfl
  | cons r rows ih =>
      rw [contribSum_cons]
      unfold qualSum at ih ⊢
      rw [List.filter_cons]
      by_cases hu : r.1.user_id = uid
      · rw [if_pos hu,
          if_pos (show (decide (r.1.user_id = uid)) = true by simpa using hu),
          List.map_cons, List.sum_cons, ih]
        congr 1
        unfold cleanContrib _minutes_between
        cases r.1.check_in <;> cases r.1.check_out <;> rfl
      · rw [if_neg hu,
          if_neg (show ¬(decide (r.1.user_id = uid)) = true by simpa using hu),
          zero_add, ih]

theorem siw1_contribSum_eq (sd : Nat) (ed : Option Nat)
    (rows : List (Shift × User)) (uid : Nat) :
    contribSum (siw1Contrib sd ed) rows uid
    = qualSum (rows.filter (fun r => siw1._in_range sd ed r.1.work_date)) uid := by
  induction rows with
  | nil => rfl
  | cons r rows ih =>
      rw [contribSum_cons, List.filter_cons]
      by_cases hin : siw1._in_range sd ed r.1.work_date = true
      · rw [if_pos hin]
        unfold qualSum at ih ⊢
        rw [List.filter_cons]
        by_cases hu : r.1.user_id = uid
        · rw [if_pos hu,
            if_pos (show (decide (r.1.user_id = uid)) = true by simpa using hu),
            List.map_cons, List.sum_cons, ih]
          congr 1
          unfold siw1Contrib
          rw [if_pos hin]
          by_cases hpos : _minutes_between r.1.check_in r.1.check_out > 0
          · rw [if_pos hpos]
            rfl
          · rw [if_neg hpos]
            simp only [Option.getD_none]
            have hnn := mb_nonneg r.1.check_in r.1.check_out
            omega
        · rw [if_neg hu,
            if_neg (show ¬(decide (r.1.user_id = uid)) = true by simpa using hu),
            zero_add, ih]
      · rw [if_neg hin]
        have hz : (if r.1.user_id = uid then (siw1Contrib sd ed r).getD 0 else 0) = 0 := by
          unfold siw1Contrib
          rw [if_neg hin]
          by_cases hu : r.1.user_id = uid <;> simp [hu]
        rw [hz, zero_add, ih]

theorem touches_iff (f : Shift × User → Option Int)
    (rows : List (Shift × User)) (uid : Nat) :
    touches f rows uid = true ↔
      ∃ r ∈ rows, r.1.user_id = uid ∧ (f r).isSome = true := by
  unfold touches
  rw [List.any_eq_true]
  simp

theorem sum_pos_iff (l : List Int) (h : ∀ x ∈ l, 0 ≤ x) :
    0 < l.sum ↔ ∃ x ∈ l, 0 < x := by
  induction l with
  | nil => simp
  | cons a l ih =>
      rw [List.sum_cons]
      have ha := h a (List.mem_cons_self a l)
      have hl : ∀ x ∈ l, 0 ≤ x := fun x hx => h x (List.mem_cons_of_mem a hx)
      have hsum : 0 ≤ l.sum := List.sum_nonneg hl
      constructor
      · intro hpos
        by_cases hap : 0 < a
        · exact ⟨a, List.mem_cons_self a l, hap⟩
        · obtain ⟨x, hx, hxp⟩ := (ih hl).mp (by omega)
          exact ⟨x, List.mem_cons_of_mem a hx, hxp⟩
      · rintro ⟨x, hx, hxp⟩
        cases hx with
        | head => omega
        | tail _ hmem =>
            have := (ih hl).mpr ⟨x, hmem, hxp⟩
            omega

theorem qualSum_pos_iff (rows : List (Shift × User)) (uid : Nat) :
    0 < qualSum rows uid ↔
      ∃ r ∈ rows, r.1.user_id = uid ∧
        0 < _minutes_between r.1.check_in r.1.check_out := by
  unfold qualSum
  rw [sum_pos_iff]
  · constructor
    · rintro ⟨x, hx, hxp⟩
      rw [List.mem_map] at hx
      obtain ⟨r, hr, rfl⟩ := hx
      rw [List.mem_filter] at hr
      exact ⟨r, hr.1, by simpa using hr.2, hxp⟩
    · rintro ⟨r, hr, hu, hp⟩
      exact ⟨_, List.mem_map_of_mem _ (List.mem_filter.mpr ⟨hr, by simpa using hu⟩), hp⟩
  · intro x hx
    rw [List.mem_map] at hx
    obtain ⟨r, _, rfl⟩ := hx
    exact mb_nonneg _ _

theorem contribSum_perm (f : Shift × User → Option Int)
    {l1 l2 : List (Shift × User)} (hp : l1.Perm l2) (uid : Nat) :
    contribSum f l1 uid = contribSum f l2 uid :=
  (hp.filterMap _).sum_eq

theorem touches_perm (f : Shift × User → Option Int)
    {l1 l2 : List (Shift × User)} (hp : l1.Perm l2) (uid : Nat) :
    touches f l1 uid = touches f l2 uid := by
  rw [Bool.eq_iff_iff, touches_iff, touches_iff]
  constructor
  · rintro ⟨r, hr, h⟩
    exact ⟨r, hp.mem_iff.mp hr, h⟩
  · rintro ⟨r, hr, h⟩
    exact ⟨r, hp.mem_iff.mpr hr, h⟩

theorem siw1Contrib_isSome (sd : Nat) (ed : Option Nat) (r : Shift × User) :
    (siw1Contrib sd ed r).isSome = true ↔
      siw1._in_range sd ed r.1.work_date = true ∧
        0 < _minutes_between r.1.check_in r.1.check_out := by
  unfold siw1Contrib
  by_cases h1 : siw1._in_range sd ed r.1.work_date = true <;>
    by_cases h2 : _minutes_between r.1.check_in r.1.check_out > 0 <;>
      simp [h1, h2]

theorem cleanContrib_isSome (r : Shift × User) :
    (cleanContrib r).isSome = true ↔
      r.1.check_in.isSome = true ∧ r.1.check_out.isSome = true := by
  unfold cleanContrib
  cases r.1.check_in <;> cases r.1.check_out <;> simp

theorem siw1_filter_align (shifts : Ledger) (users : List User)
    (year month start_day : Nat) (end_day : Option Nat)
    (department : Option String) :
    ((joinRows shifts users).filter
        (fun r => decide (r.1.work_date.year = year ∧ r.1.work_date.month = month) &&
          deptFilter department r.2)).filter
      (fun r => siw1._in_range start_day end_day r.1.work_date)
    = siw1QualRows shifts users year month start_day end_day department := by
  rw [List.filter_filter]
  apply List.filter_congr
  intro r _
  rw [Bool.and_comm]

/-- C6 as stated is false on shiftbot_clean: a user whose only qualifying
closed shift computes to 0 minutes is returned as a row with `minutes = 0`
instead of being omitted. -/
theorem claim_C6_counterexample :
    clean.month_minutes_by_user [⟨1, ⟨2025, 10, 2⟩, some 0, some 0⟩]
        [⟨1, 11, "A", none⟩] 2025 10 1 none none
      = [⟨1, "A", none, 0⟩] ∧
    qualSum (cleanQualRows [⟨1, ⟨2025, 10, 2⟩, some 0, some 0⟩]
        [⟨1, 11, "A", none⟩] 2025 10 1 none none) 1 = 0 := by
  constructor <;> decide

/-- C6 amended: in shiftbot_admin_siw1_rd3 the claim holds as stated — a row
appears for a user iff the sum of `_minutes_between` over their qualifying
(month-matching, day-range-matching, department-matching) shifts is positive,
and each row carries exactly that sum; in shiftbot_clean each row also
carries exactly the qualifying sum, but a row appears for every user with at
least one qualifying *closed* shift, so users whose qualifying minutes sum to
zero are still returned (with `minutes = 0`) rather than omitted.  Both
variants return at most one row per user. -/
theorem claim_C6_amended (shifts : Ledger) (users : List User)
    (year month start_day : Nat) (end_day : Option Nat)
    (department : Option String) :
    (∀ uid, (∃ row ∈ siw1.month_minutes_by_user shifts users year month
        start_day end_day department, row.user_id = uid)
      ↔ 0 < qualSum (siw1QualRows shifts users year month start_day end_day
          department) uid) ∧
    (∀ row ∈ siw1.month_minutes_by_user shifts users year month start_day
        end_day department,
      row.minutes = qualSum (siw1QualRows shifts users year month start_day
        end_day department) row.user_id ∧ 0 < row.minutes) ∧
    aggKeysUnique (siw1.month_minutes_by_user shifts users year month
      start_day end_day department) ∧
    (∀ uid, (∃ row ∈ clean.month_minutes_by_user shifts users year month
        start_day end_day department, row.user_id = uid)
      ↔ ∃ r ∈ cleanQualRows shifts users year month start_day end_day department,
          r.1.user_id = uid ∧ r.1.check_in.isSome = true ∧
            r.1.check_out.isSome = true) ∧
    (∀ row ∈ clean.month_minutes_by_user shifts users year month start_day
        end_day department,
      row.minutes = qualSum (cleanQualRows shifts users year month start_day
        end_day department) row.user_id) ∧
    aggKeysUnique (clean.month_minutes_by_user shifts users year month
      start_day end_day department) := by
  set sqlS := (joinRows shifts users).filter
      (fun r => decide (r.1.work_date.year = year ∧ r.1.work_date.month = month) &&
        deptFilter department r.2) with hsqlS
  set sqlC := (joinRows shifts users).filter
      (fun r => clean.periodFilter year month start_day end_day r.1 &&
        deptFilter department r.2) with hsqlC
  have hresS : siw1.month_minutes_by_user shifts users year month start_day
      end_day department
      = (List.insertionSort siw1RowOrder sqlS).foldl
          (aggStep (siw1Contrib start_day end_day)) [] := by
    unfold siw1.month_minutes_by_user
    rw [siw1_foldl_is_agg]
  have hresC : clean.month_minutes_by_user shifts users year month start_day
      end_day department
      = (List.insertionSort cleanRowOrder sqlC).foldl (aggStep cleanContrib) [] := by
    unfold clean.month_minutes_by_user
    rw [clean_foldl_is_agg]
  have hpermS : (List.insertionSort siw1RowOrder sqlS).Perm sqlS :=
    List.perm_insertionSort _ _
  have hpermC : (List.insertionSort cleanRowOrder sqlC).Perm sqlC :=
    List.perm_insertionSort _ _
  have hminsS : ∀ uid,
      minsOf ((List.insertionSort siw1RowOrder sqlS).foldl
        (aggStep (siw1Contrib start_day end_day)) []) uid
      = if touches (siw1Contrib start_day end_day)
            (List.insertionSort siw1RowOrder sqlS) uid
        then some (contribSum (siw1Contrib start_day end_day)
          (List.insertionSort siw1RowOrder sqlS) uid)
        else none := by
    intro uid
    rw [minsOf_foldl]
    rfl
  have hminsC : ∀ uid,
      minsOf ((List.insertionSort cleanRowOrder sqlC).foldl
        (aggStep cleanContrib) []) uid
      = if touches cleanContrib (List.insertionSort cleanRowOrder sqlC) uid
        then some (contribSum cleanContrib
          (List.insertionSort cleanRowOrder sqlC) uid)
        else none := by
    intro uid
    rw [minsOf_foldl]
    rfl
  have hsumS : ∀ uid,
      contribSum (siw1Contrib start_day end_day)
        (List.insertionSort siw1RowOrder sqlS) uid
      = qualSum (siw1QualRows shifts users year month start_day end_day
          department) uid := by
    intro uid
    rw [contribSum_perm _ hpermS, siw1_contribSum_eq, hsqlS,
      siw1_filter_align]
  have hsumC : ∀ uid,
      contribSum cleanContrib (List.insertionSort cleanRowOrder sqlC) uid
      = qualSum (cleanQualRows shifts users year month start_day end_day
          department) uid := by
    intro uid
    rw [contribSum_perm _ hpermC, clean_contribSum_eq, hsqlC]
    rfl
  have htS : ∀ uid,
      touches (siw1Contrib start_day end_day)
        (List.insertionSort siw1RowOrder sqlS) uid = true
      ↔ 0 < qualSum (siw1QualRows shifts users year month start_day end_day
          department) uid := by
    intro uid
    rw [touches_perm _ hpermS, touches_iff, qualSum_pos_iff]
    constructor
    · rintro ⟨r, hr, hu, hsome⟩
      rw [siw1Contrib_isSome] at hsome
      refine ⟨r, ?_, hu, hsome.2⟩
      rw [← siw1_filter_align, List.mem_filter]
      exact ⟨hr, hsome.1⟩
    · rintro ⟨r, hr, hu, hpos⟩
      rw [← siw1_filter_align, List.mem_filter] at hr
      refine ⟨r, hr.1, hu, ?_⟩
      rw [siw1Contrib_isSome]
      exact ⟨hr.2, hpos⟩
  have htC : ∀ uid,
      touches cleanContrib (List.insertionSort cleanRowOrder sqlC) uid = true
      ↔ ∃ r ∈ cleanQualRows shifts users year month start_day end_day department,
          r.1.user_id = uid ∧ r.1.check_in.isSome = true ∧
            r.1.check_out.isSome = true := by
    intro uid
    rw [touches_perm _ hpermC, touches_iff]
    constructor
    · rintro ⟨r, hr, hu, hsome⟩
      rw [cleanContrib_isSome] at hsome
      exact ⟨r, hr, hu, hsome.1, hsome.2⟩
    · rintro ⟨r, hr, hu, h1, h2⟩
      exact ⟨r, hr, hu, (cleanContrib_isSome r).mpr ⟨h1, h2⟩⟩
  refine ⟨?_, ?_, ?_, ?_, ?_, ?_⟩
  · intro uid
    rw [hresS, mem_agg_iff_minsOf, hminsS]
    constructor
    · intro hmem
      by_cases ht : touches (siw1Contrib start_day end_day)
          (List.insertionSort siw1RowOrder sqlS) uid = true
      · exact (htS uid).mp ht
      · rw [if_neg ht] at hmem
        cases hmem
    · intro hpos
      rw [if_pos ((htS uid).mpr hpos)]
      rfl
  · intro row hrow
    rw [hresS] at hrow
    have hU := foldl_aggKeysUnique (siw1Contrib start_day end_day)
      (List.insertionSort siw1RowOrder sqlS) [] List.Pairwise.nil
    have hm := minsOf_of_mem _ hU row hrow
    rw [hminsS row.user_id] at hm
    by_cases ht : touches (siw1Contrib start_day end_day)
        (List.insertionSort siw1RowOrder sqlS) row.user_id = true
    · rw [if_pos ht] at hm
      have hval : row.minutes = contribSum (siw1Contrib start_day end_day)
          (List.insertionSort siw1RowOrder sqlS) row.user_id :=
        (Option.some.inj hm).symm
      have hpos := (htS row.user_id).mp ht
      rw [hval, hsumS]
      exact ⟨rfl, hpos⟩
    · rw [if_neg ht] at hm
      cases hm
  · rw [hresS]
    exact foldl_aggKeysUnique _ _ [] List.Pairwise.nil
  · intro uid
    rw [hresC, mem_agg_iff_minsOf, hminsC]
    constructor
    · intro hmem
      by_cases ht : touches cleanContrib
          (List.insertionSort cleanRowOrder sqlC) uid = true
      · exact (htC uid).mp ht
      · rw [if_neg ht] at hmem
        cases hmem
    · intro hex
      rw [if_pos ((htC uid).mpr hex)]
      rfl
  · intro row hrow
    rw [hresC] at hrow
    have hU := foldl_aggKeysUnique cleanContrib
      (List.insertionSort cleanRowOrder sqlC) [] List.Pairwise.nil
    have hm := minsOf_of_mem _ hU row hrow
    rw [hminsC row.user_id] at hm
    by_cases ht : touches cleanContrib
        (List.insertionSort cleanRowOrder sqlC) row.user_id = true
    · rw [if_pos ht] at hm
      have hval : row.minutes = contribSum cleanContrib
          (List.insertionSort cleanRowOrder sqlC) row.user_id :=
        (Option.some.inj hm).symm
      rw [hval, hsumC]
    · rw [if_neg ht] at hm
      cases hm
  · rw [hresC]
    exact foldl_aggKeysUnique _ _ [] List.Pairwise.nil

theorem claim_C6_amended_witness :
    ((∃ row ∈ siw1.month_minutes_by_user [⟨1, ⟨2025, 10, 2⟩, some 0, some 0⟩]
        [⟨1, 11, "A", none⟩] 2025 10 1 none none, row.user_id = 1)
      ↔ 0 < qualSum (siw1QualRows [⟨1, ⟨2025, 10, 2⟩, some 0, some 0⟩]
          [⟨1, 11, "A", none⟩] 2025 10 1 none none) 1) ∧
    aggKeysUnique (clean.month_minutes_by_user [⟨1, ⟨2025, 10, 2⟩, some 0, some 0⟩]
      [⟨1, 11, "A", none⟩] 2025 10 1 none none) :=
  ⟨(claim_C6_amended [⟨1, ⟨2025, 10, 2⟩, some 0, some 0⟩]
      [⟨1, 11, "A", none⟩] 2025 10 1 none none).1 1,
   (claim_C6_amended [⟨1, ⟨2025, 10, 2⟩, some 0, some 0⟩]
      [⟨1, 11, "A", none⟩] 2025 10 1 none none).2.2.2.2.2⟩

end ShiftBot

